import Mathlib

/-!
# py2dist build orchestrator — verification development

Shallow embedding of the py2dist build orchestrator
(`py2dist/compiler.py`, `py2dist/cli.py`, `py2dist/template.py`).

Modelling conventions:

* A filesystem path is a `List Char` (`Path`), with `/` as the path
  separator (the POSIX convention; `os.path.sep` is a constant of the
  platform, and nothing the claims are about depends on its spelling).
* A filesystem is a `List Path`: the relative paths, from the process
  working directory, of every regular file.  Directories are implicit
  (a directory exists exactly when some file lies under it); `os.walk`
  over a directory `d` is `filesUnder fs d`, the paths under `d`
  relativised to `d`.
* Python's `list(set(xs))` materialises a hash set: membership is that
  of `xs`, order is unspecified (it depends on the interpreter's string
  hash seed).  It is embedded as an explicit enumeration function
  `e : List Path → List Path` constrained by `PySetList e` (no
  duplicates, same membership); `dedupList` is one concrete such
  function.
* Python string operations are embedded by their list semantics:
  `endswith`/`startswith` are suffix/prefix tests, `str.strip` drops
  surrounding whitespace, `os.path.splitext` splits the extension at
  the last dot of the basename unless everything before it is dots.
-/

namespace Py2dist

abbrev Path := List Char

def sepC : Char := '/'

/-- The characters of a string literal (used to write path constants). -/
def strOf (s : String) : Path := s.data

/-- Python `s.endswith(t)`. -/
def pyEndsWith (s t : Path) : Bool := decide (t <:+ s)

/-- Python `s.startswith(t)`. -/
def pyStartsWith (s t : Path) : Bool := decide (t <+: s)

/-- Python `s.lower()`. -/
def pyLower (s : Path) : Path := s.map Char.toLower

/-- Python `s.strip()` (no argument: strips whitespace). -/
def pyStrip (s : Path) : Path :=
  ((s.dropWhile Char.isWhitespace).reverse.dropWhile Char.isWhitespace).reverse

/-- Python `s.rstrip(cs)`: drop trailing characters drawn from `cs`. -/
def pyRstrip (s : Path) (cs : List Char) : Path :=
  (s.reverse.dropWhile (fun c => cs.contains c)).reverse

/-- `path.replace('/', os.sep).replace('\\', os.sep)` with `os.sep = '/'`. -/
def normalizeSeps (s : Path) : Path :=
  s.map (fun c => if c = '\\' then sepC else c)

/-- `os.path.basename`: the part after the last separator. -/
def fileName (p : Path) : Path := (p.reverse.takeWhile (fun c => c ≠ sepC)).reverse

/-- `os.path.dirname`: the part before the last separator, with trailing
separators stripped unless the result is all separators. -/
def dirName (p : Path) : Path :=
  let head := (p.reverse.dropWhile (fun c => c ≠ sepC)).reverse
  if head = [] then []
  else if head.all (fun c => c = sepC) then head
  else (head.reverse.dropWhile (fun c => c = sepC)).reverse

/-- `os.path.join` on two components (POSIX form). -/
def pathJoin (a b : Path) : Path :=
  if pyStartsWith b [sepC] then b
  else if a = [] then b
  else if pyEndsWith a [sepC] then a ++ b
  else a ++ sepC :: b

/-- The length of the extension `os.path.splitext` splits off: the last
dot of the basename and what follows it, provided some character of the
basename strictly before that dot is not itself a dot. -/
def splitExtLen (p : Path) : Nat :=
  let r := p.reverse
  let after := r.takeWhile (fun c => c ≠ '.' ∧ c ≠ sepC)
  match r.drop after.length with
  | '.' :: rest =>
    if (rest.takeWhile (fun c => c ≠ sepC)).any (fun c => c ≠ '.') then
      after.length + 1
    else 0
  | _ => 0

/-- `os.path.splitext(p)[0]`. -/
def splitExtRoot (p : Path) : Path := p.take (p.length - splitExtLen p)

/-- `os.path.splitext(p)[1]`. -/
def splitExtExt (p : Path) : Path := p.drop (p.length - splitExtLen p)

/-- The files lying under directory `d`, as paths relative to `d`
(`os.walk(d)` with `path_type=1`).  `d = []` is the filesystem root. -/
def filesUnder (fs : List Path) (d : Path) : List Path :=
  if d = [] then fs
  else fs.filterMap (fun p =>
    if pyStartsWith p (d ++ [sepC]) then some (p.drop (d.length + 1)) else none)

/-- `match_ext` of `get_files_in_dir`: `none` models the `"*"` filter
(match everything); `some exts` the explicit extension list, which the
source lowercases on entry. -/
def match_ext (extNames : Option (List Path)) (filename : Path) : Bool :=
  match extNames with
  | none => true
  | some exts =>
    let exts := exts.map pyLower
    let ext := if pyStartsWith filename ['.'] then filename else splitExtExt filename
    exts.contains (pyLower ext)

/-- `get_files_in_dir(dir, include_subfolder=True, path_type=1, ext_names)`:
the walk of `dir` filtered by extension of the bare filename. -/
def get_files_in_dir (fs : List Path) (dir : Path) (extNames : Option (List Path)) :
    List Path :=
  (filesUnder fs dir).filter (fun p => match_ext extNames (fileName p))

/-- The contract of a `list(set(·))` enumeration. -/
def PySetList (e : List Path → List Path) : Prop :=
  ∀ l, (e l).Nodup ∧ ∀ x, x ∈ e l ↔ x ∈ l

/-- One concrete `list(set(·))` enumeration (first-occurrence order). -/
def dedupList : List Path → List Path := fun l => l.dedup

theorem dedupList_pySetList : PySetList dedupList := by
  intro l
  exact ⟨List.nodup_dedup l, fun x => List.mem_dedup⟩

/-! ## `Compiler._get_compile_files` / `Compiler._get_non_compile_files` -/

/-- The relative-path stage of `Compiler._get_compile_files` (directory
mode): the `.py` files of the walk, minus those ending in
`"__init__.py"`, minus the exclusion list, through `list(set(·))`. -/
def compile_files_rel (e : List Path → List Path) (fs : List Path)
    (source_dir : Path) (exclude_files : List Path) : List Path :=
  let pyfiles := get_files_in_dir fs source_dir (some [strOf ".py"])
  let pyfiles := pyfiles.filter (fun f => ! pyEndsWith f (strOf "__init__.py"))
  e (pyfiles.filter (fun f => decide (f ∉ exclude_files)))

/-- `Compiler._get_compile_files` (directory mode): the relative
selection joined back under `source_dir`. -/
def get_compile_files (e : List Path → List Path) (fs : List Path)
    (source_dir : Path) (exclude_files : List Path) : List Path :=
  (compile_files_rel e fs source_dir exclude_files).map (fun f => pathJoin source_dir f)

/-- The `all_files` intermediate of `Compiler._get_non_compile_files`:
every file of the walk whose relative path does not end in `".pyc"`,
joined under `source_dir`. -/
def all_non_pyc_files (fs : List Path) (source_dir : Path) : List Path :=
  ((get_files_in_dir fs source_dir none).filter
    (fun f => ! pyEndsWith f (strOf ".pyc"))).map (fun f => pathJoin source_dir f)

/-- `Compiler._get_non_compile_files`: the non-bytecode files of the
walk minus the compiled files, through `list(set(·))`. -/
def get_non_compile_files (e : List Path → List Path) (fs : List Path)
    (source_dir : Path) (compile_files : List Path) : List Path :=
  e ((all_non_pyc_files fs source_dir).filter (fun f => decide (f ∉ compile_files)))

/-- The package-init class: the non-compiled files `_collect_output`
routes to the bytecode branch (`non_compile_file.endswith("__init__.py")`). -/
def package_init_files (e : List Path → List Path) (fs : List Path)
    (source_dir : Path) (compile_files : List Path) : List Path :=
  (get_non_compile_files e fs source_dir compile_files).filter
    (fun g => pyEndsWith g (strOf "__init__.py"))

/-- The verbatim class: the non-compiled files `_collect_output` copies
byte-for-byte (the `else` branch). -/
def verbatim_files (e : List Path → List Path) (fs : List Path)
    (source_dir : Path) (compile_files : List Path) : List Path :=
  (get_non_compile_files e fs source_dir compile_files).filter
    (fun g => ! pyEndsWith g (strOf "__init__.py"))

/-! ## `cli.parse_exclude_files`

The source's `os.path.isdir(full_dir)` guard before a directory
expansion is absorbed extensionally: when `full_dir` is not a directory
(no file lies under it) the walk contributes nothing either way, so the
expansion below is empty exactly when the guarded loop appends
nothing. -/

/-- The tail of the `parse_exclude_files` loop body: a trailing-separator
entry expands to the files currently under the named directory, each
re-joined under the entry's own (root-relative) directory path; any
other entry is itself. -/
def exclude_entry_expansion (fs : List Path) (root_dir : Path) (path : Path) :
    List Path :=
  if pyEndsWith path [sepC] then
    let dir_path := pyRstrip path [sepC]
    (get_files_in_dir fs (pathJoin root_dir dir_path) none).map
      (fun f => pathJoin dir_path f)
  else [path]

/-- One iteration of the `parse_exclude_files` loop: strip, drop the
empty entry, normalise separators, strip a `root_dir + sep` front,
silently skip an entry equal to `root_dir`, then expand. -/
def parse_exclude_entry (fs : List Path) (root_dir : Path) (raw : Path) :
    List Path :=
  let path := pyStrip raw
  if path = [] then []
  else
    let path := normalizeSeps path
    let root_dir_normalized := normalizeSeps root_dir
    if pyStartsWith path (root_dir_normalized ++ [sepC]) then
      exclude_entry_expansion fs root_dir (path.drop (root_dir_normalized.length + 1))
    else if path = root_dir_normalized then []
    else exclude_entry_expansion fs root_dir path

/-- `cli.parse_exclude_files(value, root_dir)`, with `value.split(",")`
already performed: the loop appends each entry's contribution. -/
def parse_exclude_files (fs : List Path) (entries : List Path) (root_dir : Path) :
    List Path :=
  entries.foldl (fun acc raw => acc ++ parse_exclude_entry fs root_dir raw) []

/-! ## `cli.get_bytecode_excludes`

`os.path.abspath` is the identity here: every path of the model is
already the canonical path relative to the working directory. -/

/-- `os.path.isfile`. -/
def isFile (fs : List Path) (p : Path) : Bool := fs.contains p

/-- `os.path.isdir`: some file lies under `p`. -/
def isDir (fs : List Path) (p : Path) : Bool :=
  fs.any (fun q => pyStartsWith q (p ++ [sepC]))

/-- `os.path.relpath(p, base)` for `p` at or under `base` (the only
inputs the guarded call sites reach). -/
def relpath_under (base p : Path) : Path :=
  if p = base then strOf "." else p.drop (base.length + 1)

/-- `cli.get_bytecode_excludes(bytecode_target, source_dir)`: the
source files the bytecode step will touch, as `source_dir`-relative
paths, when the target lies inside `source_dir`. -/
def get_bytecode_excludes (fs : List Path) (bytecode_target source_dir : Path) :
    List Path :=
  let source_dir_abs := pyRstrip source_dir [sepC, '\\']
  let bytecode_abs := bytecode_target
  if !(bytecode_abs = source_dir_abs
       || pyStartsWith bytecode_abs (source_dir_abs ++ [sepC])) then []
  else if isFile fs bytecode_abs then
    if ! pyEndsWith bytecode_abs (strOf ".py") then []
    else [relpath_under source_dir_abs bytecode_abs]
  else if isDir fs bytecode_abs then
    (get_files_in_dir fs bytecode_abs (some [strOf ".py"])).map
      (fun f => relpath_under source_dir_abs (pathJoin bytecode_abs f))
  else []

/-! ## Filesystem state and `Compiler._collect_output`

A filesystem state maps each path to the content of the file there, if
any.  Content is opaque except for its provenance, which is what the
claims distinguish (native artifact, byte copy, bytecode artifact). -/

/-- Provenance-tagged file content. -/
inductive FsContent where
  /-- A native artifact relocated from the staging path. -/
  | nativeArtifact (stagedAt : Path)
  /-- A byte-for-byte copy of the source file. -/
  | copyOf (src : Path)
  /-- A bytecode artifact compiled from the source file. -/
  | pycOf (src : Path)
  /-- The generated build script for the given module files. -/
  | buildScript (files : List Path)
  /-- Opaque content (pre-existing files, toolchain staging output). -/
  | blob (tag : Path)
deriving DecidableEq

abbrev FsState := Path → Option FsContent

/-- A single filesystem mutation. -/
inductive FsOp where
  | write (path : Path) (content : FsContent)
  | remove (path : Path)
deriving DecidableEq

def FsOp.pathOf : FsOp → Path
  | .write p _ => p
  | .remove p => p

def applyOp (st : FsState) : FsOp → FsState
  | .write p c => fun q => if q = p then some c else st q
  | .remove p => fun q => if q = p then none else st q

def applyOps (ops : List FsOp) (st : FsState) : FsState := ops.foldl applyOp st

/-- The interpreter's bytecode cache tag (abstract; its spelling never
matters, only that `py_compile` writes `<base>.<tag>.pyc` into the
source-side `__pycache__` and `_compile_init_to_pyc` moves it away). -/
def pycTag : Path := strOf "cpython-311"

/-- The cache artifact `py_compile.compile(src)` produces. -/
def pycCacheFile (src : Path) : Path :=
  pathJoin (pathJoin (dirName src) (strOf "__pycache__"))
    (splitExtRoot (fileName src) ++ '.' :: (pycTag ++ strOf ".pyc"))

/-- `Compiler._compile_init_to_pyc(src, dest)`: compile into the source
cache, copy the cache artifact to `splitext(dest)[0] + ".pyc"`, then
delete the cache artifact (the `os.rmdir` of the emptied cache
directory is a directory-level action with no file effect). -/
def compile_init_to_pyc_ops (src dest : Path) : List FsOp :=
  [.write (pycCacheFile src) (.pycOf src),
   .write (splitExtRoot dest ++ strOf ".pyc") (.pycOf src),
   .remove (pycCacheFile src)]

/-- One staged native artifact's relocation in `_collect_output`:
`file` is the staging-relative path; the basename keeps only its first
and last dot-segments, and the staging sub-path is mirrored under the
output directory. -/
def collect_native_op (output_dir build_dir : Path) (file : Path) : FsOp :=
  let src_path := pathJoin build_dir file
  let parts := List.splitOn sepC file
  let name_parts := List.splitOn '.' (fileName src_path)
  let file_name := name_parts.headD [] ++ '.' :: name_parts.getLastD []
  let mid_path := List.intercalate [sepC] parts.dropLast
  let dest_path := pathJoin (pathJoin output_dir mid_path) file_name
  .write dest_path (.nativeArtifact src_path)

/-- The per-file body of the second `_collect_output` loop: a
non-compiled file ending in `"__init__.py"` goes through the bytecode
branch, anything else is copied verbatim. -/
def collect_non_compile_op (output_dir : Path) (g : Path) : List FsOp :=
  let dest_path := pathJoin output_dir g
  if pyEndsWith g (strOf "__init__.py") then compile_init_to_pyc_ops g dest_path
  else [.write dest_path (.copyOf g)]

/-- `Compiler._collect_output`: relocate the staged native artifacts
(paths relative to `.py2dist/build`), then place every non-compiled
file. -/
def collect_output_ops (e : List Path → List Path) (fs : List Path)
    (output_dir source_dir : Path) (buildTree : List Path)
    (compile_files : List Path) : List FsOp :=
  (get_files_in_dir buildTree [] (some [strOf ".so", strOf ".pyd"])).map
    (collect_native_op output_dir (strOf ".py2dist/build"))
  ++ (get_non_compile_files e fs source_dir compile_files).flatMap
      (collect_non_compile_op output_dir)

/-! ## `Compiler.compile` — the run lifecycle

The toolchain is the external collaborator: `exitOf files` is the child
process's exit status for an invocation on `files`, and `buildOut
files` the staging-relative artifact paths it writes on success.  The
temporary directory of `tempfile.mkdtemp` is outside the modelled
filesystem (the orchestrator never puts artifacts there). -/

/-- The observable actions of one `Compiler.compile` invocation. -/
inductive Step where
  | clearFolders
  | runBuild (files : List Path) (exitCode : Nat)
  | collect
  | purgeTmp
deriving DecidableEq

def Step.isRunBuild : Step → Bool
  | .runBuild _ _ => true
  | _ => false

/-- `shutil.rmtree(d)`: every file under `d` disappears. -/
def clearUnder (d : Path) (st : FsState) : FsState :=
  fun q => if pyStartsWith q (d ++ [sepC]) = true then none else st q

/-- `Compiler._clear_build_folders`: remove the three scratch build
folders and the output directory. -/
def clear_build_folders (output_dir : Path) (st : FsState) : FsState :=
  [strOf ".py2dist/build", strOf ".py2dist/build_c", strOf ".py2dist/build_tmp",
   output_dir].foldl (fun s folder => clearUnder folder s) st

/-- `Compiler._generate_build_script`: (over)write the build script at
`.py2dist/build.py`.  The script content is summarised by its module
file list — the shared root and option fields never influence a
claim. -/
def generate_build_script_op (files : List Path) : FsOp :=
  .write (strOf ".py2dist/build.py") (.buildScript files)

/-- The staging writes of one successful toolchain invocation; a failed
invocation stages nothing visible (collection is never reached). -/
def run_build_fs (files : List Path) (exitOf : List Path → Nat)
    (buildOut : List Path → List Path) (st : FsState) : FsState :=
  if exitOf files = 0 then
    applyOps ((buildOut files).map
      (fun b => .write (pathJoin (strOf ".py2dist/build") b) (.blob b))) st
  else st

/-- The degraded per-file path (`IS_WINDOWS`): regenerate a one-module
script and invoke the toolchain for each file in turn; the first
failure aborts the remaining invocations. -/
def run_per_file (exitOf : List Path → Nat) (buildOut : List Path → List Path) :
    List Path → FsState → List Step × Except String Unit × FsState × List Path
  | [], st => ([], .ok (), st, [])
  | f :: rest, st =>
    let st1 := applyOp st (generate_build_script_op [f])
    let ec := exitOf [f]
    let st2 := run_build_fs [f] exitOf buildOut st1
    if ec = 0 then
      let r := run_per_file exitOf buildOut rest st2
      (Step.runBuild [f] ec :: r.1, r.2.1, r.2.2.1, buildOut [f] ++ r.2.2.2)
    else
      ([Step.runBuild [f] ec], .error "Cython build failed", st2, [])

/-- The batched path (all other platforms): one script, one
invocation. -/
def run_batched (exitOf : List Path → Nat) (buildOut : List Path → List Path)
    (files : List Path) (st : FsState) :
    List Step × Except String Unit × FsState × List Path :=
  let st1 := applyOp st (generate_build_script_op files)
  let ec := exitOf files
  let st2 := run_build_fs files exitOf buildOut st1
  if ec = 0 then ([Step.runBuild files ec], .ok (), st2, buildOut files)
  else ([Step.runBuild files ec], .error "Cython build failed", st2, [])

structure RunResult where
  steps : List Step
  result : Except String Unit
  state : FsState

/-- The tail of `Compiler.compile` after the toolchain invocations:
propagate a build failure, otherwise collect the output and, in release
mode, purge the scratch workspace. -/
def finish_run (e : List Path → List Path) (fs : List Path)
    (output_dir source_dir : Path) (compile_files : List Path) (release : Bool)
    (r : List Step × Except String Unit × FsState × List Path) : RunResult :=
  match r.2.1 with
  | .error msg => ⟨Step.clearFolders :: r.1, .error msg, r.2.2.1⟩
  | .ok _ =>
    let st3 := applyOps
      (collect_output_ops e fs output_dir source_dir r.2.2.2 compile_files)
      r.2.2.1
    if release then
      ⟨Step.clearFolders :: r.1 ++ [Step.collect, Step.purgeTmp], .ok (),
        clearUnder (strOf ".py2dist") st3⟩
    else ⟨Step.clearFolders :: r.1 ++ [Step.collect], .ok (), st3⟩

/-- `Compiler.compile`: resolve, fail fast on an empty compile set,
clear the scratch folders and the output directory, invoke the
toolchain (per-file on the degraded platform), collect the output, and
purge the scratch workspace in release mode. -/
def compile_run (isWindows : Bool) (e : List Path → List Path) (fs : List Path)
    (source_dir output_dir : Path) (exclude_files : List Path)
    (exitOf : List Path → Nat) (buildOut : List Path → List Path)
    (release : Bool) (st0 : FsState) : RunResult :=
  let compile_files := get_compile_files e fs source_dir exclude_files
  if compile_files.isEmpty then ⟨[], .error "No files to compile", st0⟩
  else
    let st1 := clear_build_folders output_dir st0
    finish_run e fs output_dir source_dir compile_files release
      (if isWindows then run_per_file exitOf buildOut compile_files st1
       else run_batched exitOf buildOut compile_files st1)

/-- The empty filesystem state. -/
def emptyFs : FsState := fun _ => none

/-- A second admissible `list(set(·))` enumeration (a different hash
seed): same membership, reversed order. -/
def dedupListRev : List Path → List Path := fun l => l.dedup.reverse

/-! ## `cli.main`, directory mode with an optional bytecode target

Models lines 89–151 of `cli.py`: exclusion assembly (including the
`list(set(...))` union with the bytecode excludes), the native compile,
the error exit on its failure, and whether the bytecode pipeline step
is reached at all (its internal effects are not a subject of any
claim). -/

inductive CliOutcome where
  | errorExit (msg : String)
  | done (run : RunResult) (bytecodeRan : Bool)

def cli_main_dir (isWindows : Bool) (e : List Path → List Path) (fs : List Path)
    (source_dir output_dir : Path) (exclude_entries : List Path)
    (bytecode_target : Option Path) (exitOf : List Path → Nat)
    (buildOut : List Path → List Path) (release : Bool) (st0 : FsState) :
    CliOutcome :=
  let exclude_files :=
    parse_exclude_files fs exclude_entries (pyRstrip source_dir [sepC])
  let exclude_files :=
    match bytecode_target with
    | some bt => e (exclude_files ++ get_bytecode_excludes fs bt source_dir)
    | none => exclude_files
  let run := compile_run isWindows e fs (pyRstrip source_dir [sepC]) output_dir
    exclude_files exitOf buildOut release st0
  match run.result with
  | .error msg => .errorExit msg
  | .ok _ =>
    match bytecode_target with
    | some _ => .done run true
    | none => .done run false

/-! ## Path sanity predicates (hypotheses of the join-level theorems) -/

/-- A well-formed workdir-relative file path: nonempty, no leading or
trailing separator, no empty component. -/
def ValidRelPath (p : Path) : Prop :=
  p ≠ [] ∧ ¬([sepC] <+: p) ∧ ¬([sepC] <:+ p) ∧ ¬([sepC, sepC] <:+: p)

/-- Every file of the filesystem is a well-formed relative path. -/
def ValidFs (fs : List Path) : Prop := ∀ p ∈ fs, ValidRelPath p

/-- A well-formed directory argument: nonempty, no leading or trailing
separator. -/
def ValidDirPath (d : Path) : Prop :=
  d ≠ [] ∧ ¬([sepC] <+: d) ∧ ¬([sepC] <:+ d)

end Py2dist

namespace Py2dist

/-! ## Basic path lemmas -/

theorem pyEndsWith_iff {s t : Path} : pyEndsWith s t = true ↔ t <:+ s := by
  simp [pyEndsWith]

theorem pyStartsWith_iff {s t : Path} : pyStartsWith s t = true ↔ t <+: s := by
  simp [pyStartsWith]

theorem fileName_suffix (p : Path) : fileName p <:+ p := by
  have h : p.reverse.takeWhile (fun c => c ≠ sepC) <+: p.reverse :=
    List.takeWhile_prefix _
  have h2 := List.reverse_suffix.mpr h
  simpa [fileName] using h2

theorem splitExtExt_suffix (p : Path) : splitExtExt p <:+ p := by
  simpa [splitExtExt] using List.drop_suffix _ p

theorem not_append_sep_isPre (a : Path) (c : Char) : ¬((a ++ [c]) <+: a) := by
  intro h
  have := h.length_le
  simp at this

theorem normalizeSeps_eq_nil {p : Path} (h : normalizeSeps p = []) : p = [] := by
  have := congrArg List.length h
  simpa [normalizeSeps] using this

theorem pyRstrip_append_sep {d : Path} (h : ¬([sepC] <:+ d)) :
    pyRstrip (d ++ [sepC]) [sepC] = d := by
  rw [pyRstrip, List.reverse_append]
  have hcontains : [sepC].contains sepC = true := by decide
  simp only [List.reverse_singleton, List.singleton_append, List.dropWhile_cons,
    hcontains, if_true]
  cases hd : d.reverse with
  | nil =>
    have : d = [] := by simpa using congrArg List.reverse hd
    simp [hd, this]
  | cons c t =>
    have hc : c ≠ sepC := by
      intro hceq
      apply h
      refine ⟨t.reverse, ?_⟩
      have : d = (c :: t).reverse := by
        have := congrArg List.reverse hd
        simpa using this
      simp [this, hceq]
    have hcontains2 : [sepC].contains c = false := by
      simp [List.contains, hc]
    simp only [List.dropWhile_cons, hcontains2, if_false, Bool.false_eq_true]
    rw [← hd, List.reverse_reverse]

theorem pathJoin_eq_append {a b : Path} (hb : ¬([sepC] <+: b)) (ha : a ≠ [])
    (ha2 : ¬([sepC] <:+ a)) : pathJoin a b = a ++ sepC :: b := by
  simp [pathJoin, pyStartsWith, pyEndsWith, hb, ha, ha2]

theorem pathJoin_cancel {a b b' : Path} (hb : ¬([sepC] <+: b))
    (hb' : ¬([sepC] <+: b')) (ha : a ≠ []) (ha2 : ¬([sepC] <:+ a))
    (h : pathJoin a b = pathJoin a b') : b = b' := by
  rw [pathJoin_eq_append hb ha ha2, pathJoin_eq_append hb' ha ha2] at h
  have h2 := List.append_cancel_left h
  injection h2


/-- A filename passing the `.py` extension filter makes the whole path
end (case-insensitively) in `".py"`. -/
theorem match_ext_py_suffix {f : Path}
    (h : match_ext (some [strOf ".py"]) (fileName f) = true) :
    strOf ".py" <:+ pyLower f := by
  have hmap : [strOf ".py"].map pyLower = [strOf ".py"] := by decide
  rw [match_ext] at h
  simp only [hmap] at h
  by_cases hc : pyStartsWith (fileName f) ['.'] = true
  · rw [if_pos hc] at h
    replace h : pyLower (fileName f) = strOf ".py" := by simpa using h
    have : pyLower (fileName f) <:+ pyLower f := (fileName_suffix f).map _
    rwa [h] at this
  · rw [if_neg hc] at h
    replace h : pyLower (splitExtExt (fileName f)) = strOf ".py" := by simpa using h
    have h1 : splitExtExt (fileName f) <:+ f :=
      (splitExtExt_suffix (fileName f)).trans (fileName_suffix f)
    have : pyLower (splitExtExt (fileName f)) <:+ pyLower f := h1.map _
    rwa [h] at this

/-- A file selected by the `.py` filter never carries the `".pyc"`
suffix (so the compiled class sits inside the non-bytecode files). -/
theorem match_ext_py_not_pyc {f : Path}
    (h : match_ext (some [strOf ".py"]) (fileName f) = true) :
    pyEndsWith f (strOf ".pyc") = false := by
  cases hb : pyEndsWith f (strOf ".pyc") with
  | false => rfl
  | true =>
    exfalso
    have hpy := match_ext_py_suffix h
    have hpyc : strOf ".pyc" <:+ f := pyEndsWith_iff.mp hb
    have hpycL : strOf ".pyc" <:+ pyLower f := by
      have h2 := hpyc.map Char.toLower
      have heq : (strOf ".pyc").map Char.toLower = strOf ".pyc" := by decide
      simpa [pyLower, heq] using h2
    rcases List.suffix_or_suffix_of_suffix hpy hpycL with h1 | h1
    · exact absurd h1 (by decide)
    · exact absurd h1 (by decide)

/-! ## Membership characterisations of the file classes -/

theorem mem_compile_files_rel {e : List Path → List Path} (he : PySetList e)
    {fs : List Path} {source_dir : Path} {exclude_files : List Path} {f : Path} :
    f ∈ compile_files_rel e fs source_dir exclude_files ↔
      f ∈ filesUnder fs source_dir ∧
      match_ext (some [strOf ".py"]) (fileName f) = true ∧
      pyEndsWith f (strOf "__init__.py") = false ∧
      f ∉ exclude_files := by
  rw [compile_files_rel]
  simp only [(he _).2, List.mem_filter, get_files_in_dir, decide_eq_true_eq,
    Bool.not_eq_true', and_assoc]

theorem mem_get_compile_files {e : List Path → List Path} (he : PySetList e)
    {fs : List Path} {source_dir : Path} {exclude_files : List Path} {g : Path} :
    g ∈ get_compile_files e fs source_dir exclude_files ↔
      ∃ f, f ∈ filesUnder fs source_dir ∧
        match_ext (some [strOf ".py"]) (fileName f) = true ∧
        pyEndsWith f (strOf "__init__.py") = false ∧
        f ∉ exclude_files ∧ g = pathJoin source_dir f := by
  rw [get_compile_files]
  simp only [List.mem_map, mem_compile_files_rel he]
  constructor
  · rintro ⟨f, ⟨h1, h2, h3, h4⟩, h5⟩
    exact ⟨f, h1, h2, h3, h4, h5.symm⟩
  · rintro ⟨f, h1, h2, h3, h4, h5⟩
    exact ⟨f, ⟨h1, h2, h3, h4⟩, h5.symm⟩

theorem mem_all_non_pyc_files {fs : List Path} {source_dir : Path} {g : Path} :
    g ∈ all_non_pyc_files fs source_dir ↔
      ∃ f, f ∈ filesUnder fs source_dir ∧
        pyEndsWith f (strOf ".pyc") = false ∧ g = pathJoin source_dir f := by
  rw [all_non_pyc_files]
  simp only [List.mem_map, List.mem_filter, get_files_in_dir, match_ext,
    List.filter_true, Bool.not_eq_true']
  constructor
  · rintro ⟨f, ⟨h1, h2⟩, h3⟩
    exact ⟨f, h1, h2, h3.symm⟩
  · rintro ⟨f, h1, h2, h3⟩
    exact ⟨f, ⟨h1, h2⟩, h3.symm⟩

theorem mem_get_non_compile_files {e : List Path → List Path} (he : PySetList e)
    {fs : List Path} {source_dir : Path} {compile_files : List Path} {g : Path} :
    g ∈ get_non_compile_files e fs source_dir compile_files ↔
      g ∈ all_non_pyc_files fs source_dir ∧ g ∉ compile_files := by
  rw [get_non_compile_files]
  simp only [(he _).2, List.mem_filter, decide_eq_true_eq]

theorem get_files_in_dir_none (fs : List Path) (dir : Path) :
    get_files_in_dir fs dir none = filesUnder fs dir := by
  simp [get_files_in_dir, match_ext]

theorem mem_filesUnder {fs : List Path} {d f : Path} (hd : d ≠ []) :
    f ∈ filesUnder fs d ↔
      ∃ p ∈ fs, pyStartsWith p (d ++ [sepC]) = true ∧ f = p.drop (d.length + 1) := by
  rw [filesUnder, if_neg hd]
  simp only [List.mem_filterMap]
  constructor
  · rintro ⟨p, hp, hif⟩
    by_cases hc : pyStartsWith p (d ++ [sepC]) = true
    · rw [if_pos hc] at hif
      exact ⟨p, hp, hc, (Option.some_inj.mp hif).symm⟩
    · rw [if_neg hc] at hif
      cases hif
  · rintro ⟨p, hp, hc, rfl⟩
    exact ⟨p, hp, by rw [if_pos hc]⟩

theorem singleton_suffix_append {a b : Path} {x : Char} (hb : b ≠ [])
    (h : [x] <:+ a ++ b) : [x] <:+ b := by
  rcases List.suffix_or_suffix_of_suffix h (List.suffix_append a b) with h1 | h1
  · exact h1
  · rcases h1 with ⟨t, ht⟩
    cases t with
    | nil =>
      simp only [List.nil_append] at ht
      rw [ht]
    | cons c t' =>
      exfalso
      have hlen := congrArg List.length ht
      simp only [List.length_append, List.length_cons, List.length_nil] at hlen
      have hb' : b.length ≠ 0 := fun h0 => hb (List.length_eq_zero.mp h0)
      omega

/-- A member of `filesUnder fs D` of a well-formed filesystem is
nonempty and does not start with a separator. -/
theorem filesUnder_valid {fs : List Path} {D f : Path} (hfs : ValidFs fs)
    (hD : D ≠ []) (hf : f ∈ filesUnder fs D) :
    f ≠ [] ∧ ¬([sepC] <+: f) := by
  rcases (mem_filesUnder hD).mp hf with ⟨p, hp, hpre, rfl⟩
  have hvp := hfs p hp
  obtain ⟨t, rfl⟩ : ∃ t, p = (D ++ [sepC]) ++ t := by
    rcases pyStartsWith_iff.mp hpre with ⟨t, ht⟩
    exact ⟨t, ht.symm⟩
  have hdrop : ((D ++ [sepC]) ++ t).drop (D.length + 1) = t := by
    have hlen : (D ++ [sepC]).length = D.length + 1 := by simp
    rw [← hlen, List.drop_left]
  rw [hdrop]
  constructor
  · rintro rfl
    exact hvp.2.2.1 ⟨D, by simp⟩
  · rintro ⟨t', rfl⟩
    exact hvp.2.2.2 ⟨D, t', by simp⟩

/-! ## C1 — the file classification is a partition -/

/-- C1.  For every source tree, the compiled, package-init and verbatim
classes together are exactly the non-`.pyc` files under `sourceDir`,
and the three classes are pairwise disjoint. -/
theorem file_classification_partition
    (e : List Path → List Path) (he : PySetList e)
    (fs : List Path) (source_dir : Path) (exclude_files : List Path) (g : Path) :
    ((g ∈ get_compile_files e fs source_dir exclude_files ∨
      g ∈ package_init_files e fs source_dir
            (get_compile_files e fs source_dir exclude_files) ∨
      g ∈ verbatim_files e fs source_dir
            (get_compile_files e fs source_dir exclude_files)) ↔
      g ∈ all_non_pyc_files fs source_dir) ∧
    ¬(g ∈ get_compile_files e fs source_dir exclude_files ∧
      g ∈ package_init_files e fs source_dir
            (get_compile_files e fs source_dir exclude_files)) ∧
    ¬(g ∈ get_compile_files e fs source_dir exclude_files ∧
      g ∈ verbatim_files e fs source_dir
            (get_compile_files e fs source_dir exclude_files)) ∧
    ¬(g ∈ package_init_files e fs source_dir
            (get_compile_files e fs source_dir exclude_files) ∧
      g ∈ verbatim_files e fs source_dir
            (get_compile_files e fs source_dir exclude_files)) := by
  have hI : ∀ h : Path,
      h ∈ package_init_files e fs source_dir
            (get_compile_files e fs source_dir exclude_files) ↔
        (h ∈ all_non_pyc_files fs source_dir ∧
         h ∉ get_compile_files e fs source_dir exclude_files) ∧
        pyEndsWith h (strOf "__init__.py") = true := by
    intro h
    rw [package_init_files, List.mem_filter, mem_get_non_compile_files he]
  have hV : ∀ h : Path,
      h ∈ verbatim_files e fs source_dir
            (get_compile_files e fs source_dir exclude_files) ↔
        (h ∈ all_non_pyc_files fs source_dir ∧
         h ∉ get_compile_files e fs source_dir exclude_files) ∧
        pyEndsWith h (strOf "__init__.py") = false := by
    intro h
    rw [verbatim_files, List.mem_filter, mem_get_non_compile_files he,
      Bool.not_eq_true']
  refine ⟨⟨?_, ?_⟩, ?_, ?_, ?_⟩
  · rintro (hc | hi | hv)
    · rcases (mem_get_compile_files he).mp hc with ⟨f, hf, hpy, _, _, rfl⟩
      exact mem_all_non_pyc_files.mpr ⟨f, hf, match_ext_py_not_pyc hpy, rfl⟩
    · exact ((hI g).mp hi).1.1
    · exact ((hV g).mp hv).1.1
  · intro hall
    by_cases hc : g ∈ get_compile_files e fs source_dir exclude_files
    · exact Or.inl hc
    · cases hb : pyEndsWith g (strOf "__init__.py") with
      | true => exact Or.inr (Or.inl ((hI g).mpr ⟨⟨hall, hc⟩, hb⟩))
      | false => exact Or.inr (Or.inr ((hV g).mpr ⟨⟨hall, hc⟩, hb⟩))
  · rintro ⟨hc, hi⟩
    exact ((hI g).mp hi).1.2 hc
  · rintro ⟨hc, hv⟩
    exact ((hV g).mp hv).1.2 hc
  · rintro ⟨hi, hv⟩
    have h2 := ((hV g).mp hv).2
    rw [((hI g).mp hi).2] at h2
    exact absurd h2 (by decide)

/-- Witness for C1: the partition at the spec's scenario tree,
evaluated at the excluded file `pkg/sub/b.py` (which lands in the
verbatim class and nowhere else). -/
theorem file_classification_partition_witness :
    ((strOf "pkg/sub/b.py" ∈ get_compile_files dedupList
        [strOf "pkg/a.py", strOf "pkg/sub/b.py", strOf "pkg/__init__.py",
         strOf "pkg/data.json"] (strOf "pkg") [strOf "sub/b.py"] ∨
      strOf "pkg/sub/b.py" ∈ package_init_files dedupList
        [strOf "pkg/a.py", strOf "pkg/sub/b.py", strOf "pkg/__init__.py",
         strOf "pkg/data.json"] (strOf "pkg")
        (get_compile_files dedupList
          [strOf "pkg/a.py", strOf "pkg/sub/b.py", strOf "pkg/__init__.py",
           strOf "pkg/data.json"] (strOf "pkg") [strOf "sub/b.py"]) ∨
      strOf "pkg/sub/b.py" ∈ verbatim_files dedupList
        [strOf "pkg/a.py", strOf "pkg/sub/b.py", strOf "pkg/__init__.py",
         strOf "pkg/data.json"] (strOf "pkg")
        (get_compile_files dedupList
          [strOf "pkg/a.py", strOf "pkg/sub/b.py", strOf "pkg/__init__.py",
           strOf "pkg/data.json"] (strOf "pkg") [strOf "sub/b.py"])) ↔
      strOf "pkg/sub/b.py" ∈ all_non_pyc_files
        [strOf "pkg/a.py", strOf "pkg/sub/b.py", strOf "pkg/__init__.py",
         strOf "pkg/data.json"] (strOf "pkg")) ∧
    ¬(strOf "pkg/sub/b.py" ∈ get_compile_files dedupList
        [strOf "pkg/a.py", strOf "pkg/sub/b.py", strOf "pkg/__init__.py",
         strOf "pkg/data.json"] (strOf "pkg") [strOf "sub/b.py"] ∧
      strOf "pkg/sub/b.py" ∈ package_init_files dedupList
        [strOf "pkg/a.py", strOf "pkg/sub/b.py", strOf "pkg/__init__.py",
         strOf "pkg/data.json"] (strOf "pkg")
        (get_compile_files dedupList
          [strOf "pkg/a.py", strOf "pkg/sub/b.py", strOf "pkg/__init__.py",
           strOf "pkg/data.json"] (strOf "pkg") [strOf "sub/b.py"])) ∧
    ¬(strOf "pkg/sub/b.py" ∈ get_compile_files dedupList
        [strOf "pkg/a.py", strOf "pkg/sub/b.py", strOf "pkg/__init__.py",
         strOf "pkg/data.json"] (strOf "pkg") [strOf "sub/b.py"] ∧
      strOf "pkg/sub/b.py" ∈ verbatim_files dedupList
        [strOf "pkg/a.py", strOf "pkg/sub/b.py", strOf "pkg/__init__.py",
         strOf "pkg/data.json"] (strOf "pkg")
        (get_compile_files dedupList
          [strOf "pkg/a.py", strOf "pkg/sub/b.py", strOf "pkg/__init__.py",
           strOf "pkg/data.json"] (strOf "pkg") [strOf "sub/b.py"])) ∧
    ¬(strOf "pkg/sub/b.py" ∈ package_init_files dedupList
        [strOf "pkg/a.py", strOf "pkg/sub/b.py", strOf "pkg/__init__.py",
         strOf "pkg/data.json"] (strOf "pkg")
        (get_compile_files dedupList
          [strOf "pkg/a.py", strOf "pkg/sub/b.py", strOf "pkg/__init__.py",
           strOf "pkg/data.json"] (strOf "pkg") [strOf "sub/b.py"]) ∧
      strOf "pkg/sub/b.py" ∈ verbatim_files dedupList
        [strOf "pkg/a.py", strOf "pkg/sub/b.py", strOf "pkg/__init__.py",
         strOf "pkg/data.json"] (strOf "pkg")
        (get_compile_files dedupList
          [strOf "pkg/a.py", strOf "pkg/sub/b.py", strOf "pkg/__init__.py",
           strOf "pkg/data.json"] (strOf "pkg") [strOf "sub/b.py"])) :=
  file_classification_partition dedupList dedupList_pySetList
    [strOf "pkg/a.py", strOf "pkg/sub/b.py", strOf "pkg/__init__.py",
     strOf "pkg/data.json"] (strOf "pkg") [strOf "sub/b.py"]
    (strOf "pkg/sub/b.py")

/-! ## C2 — exclusions are disjoint from the compiled set, and only shrink it -/

/-- C2.  The compiled selection under an exclusion rule set is disjoint
from that rule set's expansion over the tree, and the compiled set
under the empty exclusion set contains the compiled set under any
exclusion list. -/
theorem compiled_disjoint_excludes_and_monotone
    (e : List Path → List Path) (he : PySetList e)
    (fs : List Path) (source_dir : Path) (entries : List Path)
    (R : List Path) (x g : Path) :
    (x ∈ compile_files_rel e fs source_dir
          (parse_exclude_files fs entries source_dir) →
      x ∉ parse_exclude_files fs entries source_dir) ∧
    (g ∈ get_compile_files e fs source_dir R →
      g ∈ get_compile_files e fs source_dir []) := by
  constructor
  · intro hx
    exact ((mem_compile_files_rel he).mp hx).2.2.2
  · intro hg
    rcases (mem_get_compile_files he).mp hg with ⟨f, h1, h2, h3, _, h5⟩
    exact (mem_get_compile_files he).mpr ⟨f, h1, h2, h3, List.not_mem_nil f, h5⟩

/-- Witness for C2 on the scenario tree with the directory rule
`"sub/"`: `a.py` is selected and is not among the expanded exclusions,
and its joined path survives when the exclusions are dropped. -/
theorem compiled_disjoint_excludes_and_monotone_witness :
    (strOf "a.py" ∈ compile_files_rel dedupList
        [strOf "pkg/a.py", strOf "pkg/sub/b.py", strOf "pkg/__init__.py",
         strOf "pkg/data.json"] (strOf "pkg")
        (parse_exclude_files
          [strOf "pkg/a.py", strOf "pkg/sub/b.py", strOf "pkg/__init__.py",
           strOf "pkg/data.json"] [strOf "sub/"] (strOf "pkg"))) ∧
    (strOf "a.py" ∉ parse_exclude_files
        [strOf "pkg/a.py", strOf "pkg/sub/b.py", strOf "pkg/__init__.py",
         strOf "pkg/data.json"] [strOf "sub/"] (strOf "pkg")) ∧
    (strOf "pkg/a.py" ∈ get_compile_files dedupList
        [strOf "pkg/a.py", strOf "pkg/sub/b.py", strOf "pkg/__init__.py",
         strOf "pkg/data.json"] (strOf "pkg")
        (parse_exclude_files
          [strOf "pkg/a.py", strOf "pkg/sub/b.py", strOf "pkg/__init__.py",
           strOf "pkg/data.json"] [strOf "sub/"] (strOf "pkg"))) ∧
    (strOf "pkg/a.py" ∈ get_compile_files dedupList
        [strOf "pkg/a.py", strOf "pkg/sub/b.py", strOf "pkg/__init__.py",
         strOf "pkg/data.json"] (strOf "pkg") []) :=
  ⟨by decide,
   (compiled_disjoint_excludes_and_monotone dedupList dedupList_pySetList
      [strOf "pkg/a.py", strOf "pkg/sub/b.py", strOf "pkg/__init__.py",
       strOf "pkg/data.json"] (strOf "pkg") [strOf "sub/"]
      (parse_exclude_files
        [strOf "pkg/a.py", strOf "pkg/sub/b.py", strOf "pkg/__init__.py",
         strOf "pkg/data.json"] [strOf "sub/"] (strOf "pkg"))
      (strOf "a.py") (strOf "pkg/a.py")).1 (by decide),
   by decide,
   (compiled_disjoint_excludes_and_monotone dedupList dedupList_pySetList
      [strOf "pkg/a.py", strOf "pkg/sub/b.py", strOf "pkg/__init__.py",
       strOf "pkg/data.json"] (strOf "pkg") [strOf "sub/"]
      (parse_exclude_files
        [strOf "pkg/a.py", strOf "pkg/sub/b.py", strOf "pkg/__init__.py",
         strOf "pkg/data.json"] [strOf "sub/"] (strOf "pkg"))
      (strOf "a.py") (strOf "pkg/a.py")).2 (by decide)⟩

/-! ## Lemmas for the package-init claims -/

theorem suffix_pathJoin (a b : Path) : b <:+ pathJoin a b := by
  rw [pathJoin]
  split_ifs with h1 h2 h3
  · exact List.suffix_refl b
  · exact List.suffix_refl b
  · exact List.suffix_append a b
  · exact ⟨a ++ [sepC], by simp⟩

theorem init_suffix_not_pyc {q : Path}
    (h : pyEndsWith q (strOf "__init__.py") = true) :
    pyEndsWith q (strOf ".pyc") = false := by
  cases hb : pyEndsWith q (strOf ".pyc") with
  | false => rfl
  | true =>
    exfalso
    have h1 := pyEndsWith_iff.mp h
    have h2 := pyEndsWith_iff.mp hb
    rcases List.suffix_or_suffix_of_suffix h1 h2 with h3 | h3
    · exact absurd h3 (by decide)
    · exact absurd h3 (by decide)

theorem singleton_isPre_append {p q : Path} {x : Char} (hp : p ≠ []) :
    ([x] <+: p ++ q) ↔ ([x] <+: p) := by
  cases p with
  | nil => exact absurd rfl hp
  | cons c p' =>
    constructor
    · rintro ⟨t, ht⟩
      rw [List.singleton_append, List.cons_append] at ht
      injection ht with h1 _
      exact ⟨p', by rw [List.singleton_append, h1]⟩
    · rintro ⟨t, ht⟩
      rw [List.singleton_append] at ht
      injection ht with h1 _
      exact ⟨p' ++ q, by rw [List.singleton_append, h1, List.cons_append]⟩

theorem splitExtLen_append_init (u : Path) :
    splitExtLen (u ++ strOf "__init__.py") = 3 := by
  rw [splitExtLen]
  have hrev : (u ++ strOf "__init__.py").reverse =
      'y' :: 'p' :: '.' :: '_' :: '_' :: 't' :: 'i' :: 'n' :: 'i' :: '_' :: '_' ::
        u.reverse := by
    rw [List.reverse_append]
    rfl
  rw [hrev]
  simp [List.takeWhile_cons, List.any_cons, sepC]

theorem splitExtRoot_append_init (u : Path) :
    splitExtRoot (u ++ strOf "__init__.py") = u ++ strOf "__init__" := by
  rw [splitExtRoot, splitExtLen_append_init]
  have hlen1 : (u ++ strOf "__init__.py").length = u.length + 11 := by
    simp [strOf]
  rw [hlen1]
  have h11 : u.length + 11 - 3 = u.length + 8 := by omega
  rw [h11]
  have hsplit : (strOf "__init__.py" : Path) = strOf "__init__" ++ strOf ".py" := by
    decide
  rw [hsplit, ← List.append_assoc]
  have hlen2 : (u ++ strOf "__init__").length = u.length + 8 := by simp [strOf]
  rw [← hlen2, List.take_left]

/-- In `_collect_output`, a non-compiled file ending in `"__init__.py"`
contributes the bytecode write at `splitext(dest)[0] + ".pyc"`. -/
theorem collect_init_write_mem (e : List Path → List Path) (fs : List Path)
    (output_dir source_dir : Path) (buildTree cf : List Path) {g : Path}
    (hg : g ∈ get_non_compile_files e fs source_dir cf)
    (hgsuf : pyEndsWith g (strOf "__init__.py") = true) :
    FsOp.write (splitExtRoot (pathJoin output_dir g) ++ strOf ".pyc")
        (.pycOf g) ∈
      collect_output_ops e fs output_dir source_dir buildTree cf := by
  rw [collect_output_ops]
  refine List.mem_append.mpr (Or.inr (List.mem_flatMap.mpr ⟨g, hg, ?_⟩))
  rw [collect_non_compile_op]
  simp only [hgsuf, if_true, compile_init_to_pyc_ops]
  simp

/-- In `_collect_output`, a non-compiled file ending in `"__init__.py"`
is never written as a verbatim copy. -/
theorem collect_init_no_copy (e : List Path → List Path) (fs : List Path)
    (output_dir source_dir : Path) (buildTree cf : List Path) {g : Path}
    (hgsuf : pyEndsWith g (strOf "__init__.py") = true) :
    ∀ q, FsOp.write q (.copyOf g) ∉
      collect_output_ops e fs output_dir source_dir buildTree cf := by
  intro q hq
  rw [collect_output_ops] at hq
  rcases List.mem_append.mp hq with hnat | hnc
  · rcases List.mem_map.mp hnat with ⟨b, _, heq⟩
    simp [collect_native_op] at heq
  · rcases List.mem_flatMap.mp hnc with ⟨g', _, hin⟩
    by_cases hs' : pyEndsWith g' (strOf "__init__.py") = true
    · simp [collect_non_compile_op, hs', compile_init_to_pyc_ops] at hin
    · simp only [collect_non_compile_op, hs', if_false, Bool.false_eq_true,
        List.mem_singleton] at hin
      have hg' : g' = g := by
        have := (FsOp.write.injEq .. ).mp hin.symm
        exact (FsContent.copyOf.injEq .. ).mp this.2
      rw [hg'] at hs'
      exact hs' hgsuf

/-! ## C9 — package-init classification is a filename-suffix test -/

/-- C9.  Any file whose relative path merely ends in the string
`"__init__.py"` (such as `my__init__.py`) is excluded from native
compilation and, when collected, is emitted as a bytecode artifact and
never as a verbatim copy. -/
theorem init_suffix_is_bytecode_class
    (e : List Path → List Path) (he : PySetList e)
    (fs : List Path) (source_dir output_dir : Path)
    (exclude_files buildTree : List Path) (f : Path)
    (hsuf : pyEndsWith f (strOf "__init__.py") = true) :
    f ∉ compile_files_rel e fs source_dir exclude_files ∧
    (pathJoin source_dir f ∈ get_non_compile_files e fs source_dir
        (get_compile_files e fs source_dir exclude_files) →
      FsOp.write
          (splitExtRoot (pathJoin output_dir (pathJoin source_dir f)) ++
            strOf ".pyc")
          (.pycOf (pathJoin source_dir f)) ∈
        collect_output_ops e fs output_dir source_dir buildTree
          (get_compile_files e fs source_dir exclude_files) ∧
      ∀ q, FsOp.write q (.copyOf (pathJoin source_dir f)) ∉
        collect_output_ops e fs output_dir source_dir buildTree
          (get_compile_files e fs source_dir exclude_files)) := by
  have hgsuf : pyEndsWith (pathJoin source_dir f) (strOf "__init__.py") = true :=
    pyEndsWith_iff.mpr ((pyEndsWith_iff.mp hsuf).trans (suffix_pathJoin source_dir f))
  constructor
  · intro hmem
    have h := (mem_compile_files_rel he).mp hmem
    rw [hsuf] at h
    exact absurd h.2.2.1 (by decide)
  · intro hg
    exact ⟨collect_init_write_mem e fs output_dir source_dir buildTree _ hg hgsuf,
      collect_init_no_copy e fs output_dir source_dir buildTree _ hgsuf⟩

/-- Witness for C9: `pkg/my__init__.py` is not selected for
compilation, gets a bytecode write at `dist/pkg/my__init__.pyc`, and is
never written as a copy. -/
theorem init_suffix_is_bytecode_class_witness :
    (strOf "my__init__.py" ∉ compile_files_rel dedupList
        [strOf "pkg/my__init__.py", strOf "pkg/a.py"] (strOf "pkg") []) ∧
    (FsOp.write
        (splitExtRoot (pathJoin (strOf "dist")
          (pathJoin (strOf "pkg") (strOf "my__init__.py"))) ++ strOf ".pyc")
        (.pycOf (pathJoin (strOf "pkg") (strOf "my__init__.py"))) ∈
      collect_output_ops dedupList
        [strOf "pkg/my__init__.py", strOf "pkg/a.py"] (strOf "dist") (strOf "pkg")
        [] (get_compile_files dedupList
          [strOf "pkg/my__init__.py", strOf "pkg/a.py"] (strOf "pkg") [])) ∧
    (FsOp.write (pathJoin (strOf "dist")
          (pathJoin (strOf "pkg") (strOf "my__init__.py")))
        (.copyOf (pathJoin (strOf "pkg") (strOf "my__init__.py"))) ∉
      collect_output_ops dedupList
        [strOf "pkg/my__init__.py", strOf "pkg/a.py"] (strOf "dist") (strOf "pkg")
        [] (get_compile_files dedupList
          [strOf "pkg/my__init__.py", strOf "pkg/a.py"] (strOf "pkg") [])) := by
  have h := init_suffix_is_bytecode_class dedupList dedupList_pySetList
    [strOf "pkg/my__init__.py", strOf "pkg/a.py"] (strOf "pkg") (strOf "dist")
    [] [] (strOf "my__init__.py") (by decide)
  exact ⟨h.1, (h.2 (by decide)).1,
    (h.2 (by decide)).2 (pathJoin (strOf "dist")
      (pathJoin (strOf "pkg") (strOf "my__init__.py")))⟩

/-! ## C3 — package-init files round-trip to mirrored bytecode -/

/-- C3.  A package-init file at relative path `p/__init__.py` is never
natively compiled under any exclusion rules, and collection writes its
bytecode artifact at the mirrored distribution path
`outputDir/sourceDir/p/__init__.pyc`, never a verbatim copy. -/
theorem package_init_roundtrip
    (e : List Path → List Path) (he : PySetList e) (fs : List Path)
    (source_dir output_dir : Path) (exclude_files buildTree : List Path)
    (p : Path) (hfs : ValidFs fs) (hsrc : ValidDirPath source_dir)
    (hout : ValidDirPath output_dir) (hpv : ValidDirPath p)
    (hp : pathJoin p (strOf "__init__.py") ∈ filesUnder fs source_dir) :
    (∀ R : List Path,
      pathJoin source_dir (pathJoin p (strOf "__init__.py")) ∉
        get_compile_files e fs source_dir R) ∧
    FsOp.write
        (pathJoin output_dir
          (pathJoin source_dir (pathJoin p (strOf "__init__.pyc"))))
        (.pycOf (pathJoin source_dir (pathJoin p (strOf "__init__.py")))) ∈
      collect_output_ops e fs output_dir source_dir buildTree
        (get_compile_files e fs source_dir exclude_files) ∧
    ∀ q, FsOp.write q
        (.copyOf (pathJoin source_dir (pathJoin p (strOf "__init__.py")))) ∉
      collect_output_ops e fs output_dir source_dir buildTree
        (get_compile_files e fs source_dir exclude_files) := by
  set rel := pathJoin p (strOf "__init__.py") with hrel
  have hrelsuf : pyEndsWith rel (strOf "__init__.py") = true :=
    pyEndsWith_iff.mpr (suffix_pathJoin p _)
  have h1 : rel = p ++ sepC :: strOf "__init__.py" :=
    pathJoin_eq_append (by decide) hpv.1 hpv.2.2
  have h2 : ¬([sepC] <+: rel) := by
    rw [h1, singleton_isPre_append hpv.1]
    exact hpv.2.1
  have h3 : pathJoin source_dir rel = source_dir ++ sepC :: rel :=
    pathJoin_eq_append h2 hsrc.1 hsrc.2.2
  have hgsuf : pyEndsWith (pathJoin source_dir rel) (strOf "__init__.py") = true :=
    pyEndsWith_iff.mpr
      ((pyEndsWith_iff.mp hrelsuf).trans (suffix_pathJoin source_dir rel))
  have hnever : ∀ R : List Path,
      pathJoin source_dir rel ∉ get_compile_files e fs source_dir R := by
    intro R hmem
    rcases (mem_get_compile_files he).mp hmem with ⟨f', hfU, _, hnotinit, _, heq⟩
    have hfv := filesUnder_valid hfs hsrc.1 hfU
    have : rel = f' := pathJoin_cancel h2 hfv.2 hsrc.1 hsrc.2.2 heq
    rw [← this, hrelsuf] at hnotinit
    exact absurd hnotinit (by decide)
  have hg : pathJoin source_dir rel ∈ get_non_compile_files e fs source_dir
      (get_compile_files e fs source_dir exclude_files) := by
    rw [mem_get_non_compile_files he]
    exact ⟨mem_all_non_pyc_files.mpr ⟨rel, hp, init_suffix_not_pyc hrelsuf, rfl⟩,
      hnever exclude_files⟩
  have hwrite := collect_init_write_mem e fs output_dir source_dir buildTree _
    hg hgsuf
  have hpatheq : splitExtRoot (pathJoin output_dir (pathJoin source_dir rel)) ++
      strOf ".pyc" =
      pathJoin output_dir
        (pathJoin source_dir (pathJoin p (strOf "__init__.pyc"))) := by
    have h4 : ¬([sepC] <+: pathJoin source_dir rel) := by
      rw [h3, singleton_isPre_append hsrc.1]
      exact hsrc.2.1
    have h5 : pathJoin output_dir (pathJoin source_dir rel) =
        output_dir ++ sepC :: pathJoin source_dir rel :=
      pathJoin_eq_append h4 hout.1 hout.2.2
    have h1' : pathJoin p (strOf "__init__.pyc") =
        p ++ sepC :: strOf "__init__.pyc" :=
      pathJoin_eq_append (by decide) hpv.1 hpv.2.2
    have h2' : ¬([sepC] <+: pathJoin p (strOf "__init__.pyc")) := by
      rw [h1', singleton_isPre_append hpv.1]
      exact hpv.2.1
    have h3' : pathJoin source_dir (pathJoin p (strOf "__init__.pyc")) =
        source_dir ++ sepC :: pathJoin p (strOf "__init__.pyc") :=
      pathJoin_eq_append h2' hsrc.1 hsrc.2.2
    have h4' : ¬([sepC] <+: pathJoin source_dir (pathJoin p (strOf "__init__.pyc"))) := by
      rw [h3', singleton_isPre_append hsrc.1]
      exact hsrc.2.1
    have h5' : pathJoin output_dir
        (pathJoin source_dir (pathJoin p (strOf "__init__.pyc"))) =
        output_dir ++ sepC ::
          pathJoin source_dir (pathJoin p (strOf "__init__.pyc")) :=
      pathJoin_eq_append h4' hout.1 hout.2.2
    have hu : pathJoin output_dir (pathJoin source_dir rel) =
        (output_dir ++ sepC :: (source_dir ++ sepC :: (p ++ [sepC]))) ++
          strOf "__init__.py" := by
      rw [h5, h3, h1]
      simp
    rw [hu, splitExtRoot_append_init, h5', h3', h1']
    have hcat : (strOf "__init__" : Path) ++ strOf ".pyc" = strOf "__init__.pyc" := by
      decide
    simp [hcat]
  rw [hpatheq] at hwrite
  exact ⟨hnever, hwrite,
    collect_init_no_copy e fs output_dir source_dir buildTree _ hgsuf⟩

/-- Witness for C3 at `pkg/sub/__init__.py`: never compiled, bytecode
artifact at `dist/pkg/sub/__init__.pyc`, no verbatim copy. -/
theorem package_init_roundtrip_witness :
    (pathJoin (strOf "pkg") (pathJoin (strOf "sub") (strOf "__init__.py")) ∉
      get_compile_files dedupList
        [strOf "pkg/sub/__init__.py", strOf "pkg/a.py"] (strOf "pkg") []) ∧
    (FsOp.write
        (pathJoin (strOf "dist")
          (pathJoin (strOf "pkg") (pathJoin (strOf "sub") (strOf "__init__.pyc"))))
        (.pycOf (pathJoin (strOf "pkg")
          (pathJoin (strOf "sub") (strOf "__init__.py")))) ∈
      collect_output_ops dedupList
        [strOf "pkg/sub/__init__.py", strOf "pkg/a.py"] (strOf "dist")
        (strOf "pkg") []
        (get_compile_files dedupList
          [strOf "pkg/sub/__init__.py", strOf "pkg/a.py"] (strOf "pkg") [])) ∧
    (FsOp.write
        (pathJoin (strOf "dist")
          (pathJoin (strOf "pkg") (pathJoin (strOf "sub") (strOf "__init__.py"))))
        (.copyOf (pathJoin (strOf "pkg")
          (pathJoin (strOf "sub") (strOf "__init__.py")))) ∉
      collect_output_ops dedupList
        [strOf "pkg/sub/__init__.py", strOf "pkg/a.py"] (strOf "dist")
        (strOf "pkg") []
        (get_compile_files dedupList
          [strOf "pkg/sub/__init__.py", strOf "pkg/a.py"] (strOf "pkg") [])) := by
  have h := package_init_roundtrip dedupList dedupList_pySetList
    [strOf "pkg/sub/__init__.py", strOf "pkg/a.py"] (strOf "pkg") (strOf "dist")
    [] [] (strOf "sub")
    (by intro q hq; fin_cases hq <;>
      exact ⟨by decide, by decide, by decide, by decide⟩)
    ⟨by decide, by decide, by decide⟩ ⟨by decide, by decide, by decide⟩
    ⟨by decide, by decide, by decide⟩ (by decide)
  exact ⟨h.1 [], h.2.1,
    h.2.2 (pathJoin (strOf "dist")
      (pathJoin (strOf "pkg") (pathJoin (strOf "sub") (strOf "__init__.py"))))⟩

/-! ## Filesystem-state frame lemmas -/

theorem applyOps_frame {ops : List FsOp} {st : FsState} {q : Path}
    (h : ∀ op ∈ ops, FsOp.pathOf op ≠ q) : applyOps ops st q = st q := by
  induction ops generalizing st with
  | nil => rfl
  | cons op rest ih =>
    show applyOps rest (applyOp st op) q = st q
    rw [ih (fun o ho => h o (List.mem_cons_of_mem _ ho))]
    have hne := h op (List.mem_cons_self _ _)
    cases op with
    | write p c =>
      show (if q = p then some c else st q) = st q
      rw [if_neg]
      intro hq
      exact hne (by rw [FsOp.pathOf, hq])
    | remove p =>
      show (if q = p then none else st q) = st q
      rw [if_neg]
      intro hq
      exact hne (by rw [FsOp.pathOf, hq])

theorem applyOps_keeps {ops : List FsOp} {st : FsState} {q : Path}
    (hr : ∀ p, FsOp.remove p ∈ ops → p ≠ q) (hne : st q ≠ none) :
    applyOps ops st q ≠ none := by
  induction ops generalizing st with
  | nil => exact hne
  | cons op rest ih =>
    show applyOps rest (applyOp st op) q ≠ none
    apply ih (fun p hp => hr p (List.mem_cons_of_mem _ hp))
    cases op with
    | write p c =>
      show (if q = p then some c else st q) ≠ none
      by_cases hq : q = p
      · rw [if_pos hq]
        exact Option.some_ne_none c
      · rw [if_neg hq]
        exact hne
    | remove p =>
      show (if q = p then none else st q) ≠ none
      rw [if_neg]
      · exact hne
      · intro hq
        exact hr p (List.mem_cons_self _ _) hq.symm

theorem isPre_or_isPre {l₁ l₂ l₃ : Path} (h1 : l₁ <+: l₃) (h2 : l₂ <+: l₃) :
    l₁ <+: l₂ ∨ l₂ <+: l₁ := by
  have s1 : l₁.reverse <:+ l₃.reverse := List.reverse_suffix.mpr h1
  have s2 : l₂.reverse <:+ l₃.reverse := List.reverse_suffix.mpr h2
  rcases List.suffix_or_suffix_of_suffix s1 s2 with h | h
  · exact Or.inl (List.reverse_suffix.mp (by simpa using h))
  · exact Or.inr (List.reverse_suffix.mp (by simpa using h))

/-- Two prefixes with different first characters never govern the same
path (used to separate the source, output and scratch regions). -/
theorem isPre_head_disjoint {a b : Path} {c1 c2 : Char} (hne : c1 ≠ c2)
    (ha : a.head? = some c1) (hb : b.head? = some c2) :
    ∀ q, a <+: q → ¬(b <+: q) := by
  intro q h1 h2
  rcases h1 with ⟨t1, ht1⟩
  rcases h2 with ⟨t2, ht2⟩
  rw [← ht1] at ht2
  have hh := congrArg List.head? ht2
  cases a with
  | nil => exact Option.noConfusion ha
  | cons x xs =>
    cases b with
    | nil => exact Option.noConfusion hb
    | cons y ys =>
      simp only [List.cons_append, List.head?_cons, Option.some_inj] at hh ha hb
      apply hne
      rw [← ha, ← hb]
      exact hh.symm

theorem pathJoin_keeps_isPre {pre a b : Path} (ha : pre <+: a) (ha2 : a ≠ [])
    (hb : ¬([sepC] <+: b)) : pre <+: pathJoin a b := by
  rw [pathJoin]
  by_cases h1 : pyStartsWith b [sepC] = true
  · exact absurd (pyStartsWith_iff.mp h1) hb
  · rw [if_neg h1, if_neg ha2]
    by_cases h3 : pyEndsWith a [sepC] = true
    · rw [if_pos h3]
      exact ha.trans ⟨b, rfl⟩
    · rw [if_neg h3]
      exact ha.trans ⟨sepC :: b, rfl⟩

/-! ## Where the build phase writes -/

theorem artifact_path_under {b : Path} (hb : ¬([sepC] <+: b)) :
    (strOf ".py2dist" ++ [sepC]) <+: pathJoin (strOf ".py2dist/build") b := by
  rw [pathJoin_eq_append hb (by decide) (by decide)]
  have h2 : strOf ".py2dist/build" = (strOf ".py2dist" ++ [sepC]) ++ strOf "build" := by
    decide
  rw [h2]
  exact ⟨strOf "build" ++ sepC :: b, by simp⟩

theorem run_build_fs_outside {files : List Path} {exitOf : List Path → Nat}
    {buildOut : List Path → List Path} {st : FsState} {q : Path}
    (hbo : ∀ l b, b ∈ buildOut l → ¬([sepC] <+: b))
    (hq : ¬((strOf ".py2dist" ++ [sepC]) <+: q)) :
    run_build_fs files exitOf buildOut st q = st q := by
  rw [run_build_fs]
  split_ifs with h0
  · apply applyOps_frame
    intro op hop
    rcases List.mem_map.mp hop with ⟨b, hbm, rfl⟩
    rw [FsOp.pathOf]
    intro hcontra
    exact hq (hcontra ▸ artifact_path_under (hbo _ _ hbm))
  · rfl

theorem script_write_outside {files : List Path} {st : FsState} {q : Path}
    (hq : ¬((strOf ".py2dist" ++ [sepC]) <+: q)) :
    applyOp st (generate_build_script_op files) q = st q := by
  show (if q = strOf ".py2dist/build.py" then some (FsContent.buildScript files)
    else st q) = st q
  rw [if_neg]
  intro hcontra
  exact hq (by rw [hcontra]; decide)

theorem run_per_file_state_outside {exitOf : List Path → Nat}
    {buildOut : List Path → List Path}
    (hbo : ∀ l b, b ∈ buildOut l → ¬([sepC] <+: b)) {q : Path}
    (hq : ¬((strOf ".py2dist" ++ [sepC]) <+: q)) :
    ∀ (files : List Path) (st : FsState),
      (run_per_file exitOf buildOut files st).2.2.1 q = st q := by
  intro files
  induction files with
  | nil => intro st; rfl
  | cons f rest ih =>
    intro st
    rw [run_per_file]
    by_cases h0 : exitOf [f] = 0
    · simp only [h0, if_true]
      rw [ih, run_build_fs_outside hbo hq, script_write_outside hq]
    · simp only [h0, if_false]
      rw [run_build_fs_outside hbo hq, script_write_outside hq]

theorem run_batched_state_outside {exitOf : List Path → Nat}
    {buildOut : List Path → List Path}
    (hbo : ∀ l b, b ∈ buildOut l → ¬([sepC] <+: b)) {q : Path}
    (hq : ¬((strOf ".py2dist" ++ [sepC]) <+: q))
    (files : List Path) (st : FsState) :
    (run_batched exitOf buildOut files st).2.2.1 q = st q := by
  rw [run_batched]
  split_ifs with h0 <;>
    simp only [] <;>
    rw [run_build_fs_outside hbo hq, script_write_outside hq]

theorem clear_build_folders_under_output {output_dir q : Path}
    (h : (output_dir ++ [sepC]) <+: q) (st : FsState) :
    clear_build_folders output_dir st q = none := by
  rw [clear_build_folders]
  simp only [List.foldl_cons, List.foldl_nil]
  rw [clearUnder, if_pos (pyStartsWith_iff.mpr h)]

/-! ## Shapes and failure propagation of the build phase -/

theorem run_per_file_steps_shape {exitOf : List Path → Nat}
    {buildOut : List Path → List Path} :
    ∀ (files : List Path) (st : FsState) (s : Step),
      s ∈ (run_per_file exitOf buildOut files st).1 → s.isRunBuild = true := by
  intro files
  induction files with
  | nil => intro st s h; cases h
  | cons f rest ih =>
    intro st s h
    rw [run_per_file] at h
    by_cases h0 : exitOf [f] = 0
    · simp only [h0, if_true, List.mem_cons] at h
      rcases h with rfl | h
      · rfl
      · exact ih _ s h
    · simp only [h0, if_false, List.mem_singleton] at h
      rw [h]
      rfl

theorem run_batched_steps_shape {exitOf : List Path → Nat}
    {buildOut : List Path → List Path} (files : List Path) (st : FsState)
    (s : Step) (h : s ∈ (run_batched exitOf buildOut files st).1) :
    s.isRunBuild = true := by
  rw [run_batched] at h
  split_ifs at h <;> (rw [List.mem_singleton] at h; rw [h]; rfl)

theorem run_per_file_fail {exitOf : List Path → Nat}
    {buildOut : List Path → List Path} {fls : List Path} {ec : Nat}
    (hec : ec ≠ 0) :
    ∀ (files : List Path) (st : FsState),
      Step.runBuild fls ec ∈ (run_per_file exitOf buildOut files st).1 →
      (run_per_file exitOf buildOut files st).2.1 = .error "Cython build failed" ∧
      (run_per_file exitOf buildOut files st).1.count (Step.runBuild fls ec) = 1 := by
  intro files
  induction files with
  | nil => intro st h; cases h
  | cons f rest ih =>
    intro st h
    rw [run_per_file] at h ⊢
    by_cases h0 : exitOf [f] = 0
    · simp only [h0, if_true, List.mem_cons] at h ⊢
      rcases h with heq | h
      · exact absurd ((Step.runBuild.injEq .. ).mp heq).2 hec
      · have hrec := ih _ h
        refine ⟨hrec.1, ?_⟩
        rw [List.count_cons, hrec.2]
        simp
        exact fun _ h0' => hec h0'.symm
    · simp only [h0, if_false, List.mem_singleton] at h ⊢
      rw [h]
      exact ⟨by trivial, by simp⟩

theorem run_per_file_ok_codes {exitOf : List Path → Nat}
    {buildOut : List Path → List Path} :
    ∀ (files : List Path) (st : FsState),
      (run_per_file exitOf buildOut files st).2.1 = .ok () →
      ∀ a c, Step.runBuild a c ∈ (run_per_file exitOf buildOut files st).1 →
        c = 0 := by
  intro files
  induction files with
  | nil => intro st _ a c h; cases h
  | cons f rest ih =>
    intro st hok a c h
    rw [run_per_file] at hok h
    by_cases h0 : exitOf [f] = 0
    · simp only [h0, if_true, List.mem_cons] at hok h
      rcases h with heq | h
      · exact ((Step.runBuild.injEq .. ).mp heq).2
      · exact ih _ hok a c h
    · simp only [h0, if_false] at hok
      cases hok

theorem run_batched_fail {exitOf : List Path → Nat}
    {buildOut : List Path → List Path} {fls : List Path} {ec : Nat}
    (hec : ec ≠ 0) (files : List Path) (st : FsState)
    (h : Step.runBuild fls ec ∈ (run_batched exitOf buildOut files st).1) :
    (run_batched exitOf buildOut files st).2.1 = .error "Cython build failed" ∧
    (run_batched exitOf buildOut files st).1.count (Step.runBuild fls ec) = 1 := by
  rw [run_batched] at h ⊢
  split_ifs at h ⊢ with h0
  · exfalso
    rw [List.mem_singleton] at h
    have := (Step.runBuild.injEq .. ).mp h
    rw [this.2, h0] at hec
    exact hec rfl
  · rw [List.mem_singleton] at h
    rw [h]
    exact ⟨rfl, by simp⟩

theorem run_batched_ok_codes {exitOf : List Path → Nat}
    {buildOut : List Path → List Path} (files : List Path) (st : FsState)
    (hok : (run_batched exitOf buildOut files st).2.1 = .ok ())
    (a : List Path) (c : Nat)
    (h : Step.runBuild a c ∈ (run_batched exitOf buildOut files st).1) : c = 0 := by
  rw [run_batched] at hok h
  split_ifs at hok h with h0
  rw [List.mem_singleton] at h
  exact ((Step.runBuild.injEq .. ).mp h).2.trans h0

theorem run_any_fail {exitOf : List Path → Nat} {buildOut : List Path → List Path}
    {fls : List Path} {ec : Nat} (hec : ec ≠ 0) (isWindows : Bool)
    (files : List Path) (st : FsState)
    (h : Step.runBuild fls ec ∈
      (if isWindows then run_per_file exitOf buildOut files st
       else run_batched exitOf buildOut files st).1) :
    (if isWindows then run_per_file exitOf buildOut files st
     else run_batched exitOf buildOut files st).2.1 =
        .error "Cython build failed" ∧
    (if isWindows then run_per_file exitOf buildOut files st
     else run_batched exitOf buildOut files st).1.count
        (Step.runBuild fls ec) = 1 := by
  split_ifs at h ⊢ with hw
  · exact run_per_file_fail hec files st h
  · exact run_batched_fail hec files st h

theorem run_any_ok_codes {exitOf : List Path → Nat}
    {buildOut : List Path → List Path} (isWindows : Bool)
    (files : List Path) (st : FsState)
    (hok : (if isWindows then run_per_file exitOf buildOut files st
            else run_batched exitOf buildOut files st).2.1 = .ok ())
    (a : List Path) (c : Nat)
    (h : Step.runBuild a c ∈
      (if isWindows then run_per_file exitOf buildOut files st
       else run_batched exitOf buildOut files st).1) : c = 0 := by
  split_ifs at hok h with hw
  · exact run_per_file_ok_codes files st hok a c h
  · exact run_batched_ok_codes files st hok a c h

theorem run_any_shape {exitOf : List Path → Nat}
    {buildOut : List Path → List Path} (isWindows : Bool)
    (files : List Path) (st : FsState) (s : Step)
    (h : s ∈ (if isWindows then run_per_file exitOf buildOut files st
              else run_batched exitOf buildOut files st).1) :
    s.isRunBuild = true := by
  split_ifs at h with hw
  · exact run_per_file_steps_shape files st s h
  · exact run_batched_steps_shape files st s h

theorem run_any_state_outside {exitOf : List Path → Nat}
    {buildOut : List Path → List Path}
    (hbo : ∀ l b, b ∈ buildOut l → ¬([sepC] <+: b)) {q : Path}
    (hq : ¬((strOf ".py2dist" ++ [sepC]) <+: q)) (isWindows : Bool)
    (files : List Path) (st : FsState) :
    (if isWindows then run_per_file exitOf buildOut files st
     else run_batched exitOf buildOut files st).2.2.1 q = st q := by
  split_ifs with hw
  · exact run_per_file_state_outside hbo hq files st
  · exact run_batched_state_outside hbo hq files st

/-! ## C6 — a toolchain failure is fatal -/

/-- C6.  If any toolchain invocation of a run exits non-zero, the run
fails with the build error, that invocation is not retried, output
collection is never reached (nor the release purge), and the output
directory — cleared at the start of the run — holds no artifact at
all. -/
theorem toolchain_failure_is_fatal (isWindows : Bool)
    (e : List Path → List Path) (fs : List Path)
    (source_dir output_dir : Path) (exclude_files : List Path)
    (exitOf : List Path → Nat) (buildOut : List Path → List Path)
    (release : Bool) (st0 : FsState)
    (hbo : ∀ l b, b ∈ buildOut l → ¬([sepC] <+: b))
    (hdisj : ∀ q, (strOf ".py2dist" ++ [sepC]) <+: q →
      ¬((output_dir ++ [sepC]) <+: q))
    (fls : List Path) (ec : Nat) (hec : ec ≠ 0)
    (hmem : Step.runBuild fls ec ∈ (compile_run isWindows e fs source_dir
      output_dir exclude_files exitOf buildOut release st0).steps) :
    (compile_run isWindows e fs source_dir output_dir exclude_files exitOf
        buildOut release st0).result = .error "Cython build failed" ∧
    Step.collect ∉ (compile_run isWindows e fs source_dir output_dir
        exclude_files exitOf buildOut release st0).steps ∧
    Step.purgeTmp ∉ (compile_run isWindows e fs source_dir output_dir
        exclude_files exitOf buildOut release st0).steps ∧
    (compile_run isWindows e fs source_dir output_dir exclude_files exitOf
        buildOut release st0).steps.count (Step.runBuild fls ec) = 1 ∧
    ∀ q, (output_dir ++ [sepC]) <+: q →
      (compile_run isWindows e fs source_dir output_dir exclude_files exitOf
        buildOut release st0).state q = none := by
  by_cases hFe : (get_compile_files e fs source_dir exclude_files).isEmpty
  · exfalso
    rw [compile_run] at hmem
    simp only [hFe, if_true] at hmem
    cases hmem
  · have hunfold : compile_run isWindows e fs source_dir output_dir
        exclude_files exitOf buildOut release st0 =
        finish_run e fs output_dir source_dir
          (get_compile_files e fs source_dir exclude_files) release
          (if isWindows then run_per_file exitOf buildOut
              (get_compile_files e fs source_dir exclude_files)
              (clear_build_folders output_dir st0)
           else run_batched exitOf buildOut
              (get_compile_files e fs source_dir exclude_files)
              (clear_build_folders output_dir st0)) := by
      rw [compile_run, if_neg hFe]
    rw [hunfold] at hmem ⊢
    set r := (if isWindows then run_per_file exitOf buildOut
        (get_compile_files e fs source_dir exclude_files)
        (clear_build_folders output_dir st0)
      else run_batched exitOf buildOut
        (get_compile_files e fs source_dir exclude_files)
        (clear_build_folders output_dir st0)) with hr
    cases hres : r.2.1 with
    | ok u =>
      exfalso
      cases u
      have hmext : Step.runBuild fls ec ∈ r.1 := by
        by_cases hrel : release
        · simp only [finish_run, hres, hrel, if_true] at hmem
          rcases List.mem_cons.mp hmem with hh | hh
          · exact Step.noConfusion hh
          · rcases List.mem_append.mp hh with hh2 | hh2
            · exact hh2
            · exfalso
              simp only [List.mem_cons, List.mem_singleton, List.not_mem_nil,
                or_false] at hh2
              rcases hh2 with hh3 | hh3 <;> exact Step.noConfusion hh3
        · simp only [finish_run, hres, hrel, if_false] at hmem
          rcases List.mem_cons.mp hmem with hh | hh
          · exact Step.noConfusion hh
          · rcases List.mem_append.mp hh with hh2 | hh2
            · exact hh2
            · exfalso
              rw [List.mem_singleton] at hh2
              exact Step.noConfusion hh2
      exact hec (run_any_ok_codes isWindows _ _ (by rw [← hr]; exact hres)
        fls ec (hr ▸ hmext))
    | error msg =>
      have hm1 : Step.runBuild fls ec ∈ r.1 := by
        simp only [finish_run, hres] at hmem
        rcases List.mem_cons.mp hmem with hh | hh
        · exact Step.noConfusion hh
        · exact hh
      have hfl := run_any_fail hec isWindows
        (get_compile_files e fs source_dir exclude_files)
        (clear_build_folders output_dir st0) (hr ▸ hm1)
      have hfl1 : r.2.1 = Except.error "Cython build failed" := by
        rw [hr]
        exact hfl.1
      have hcount : r.1.count (Step.runBuild fls ec) = 1 := by
        rw [hr]
        exact hfl.2
      have hmsg : msg = "Cython build failed" :=
        (Except.error.injEq .. ).mp (hres.symm.trans hfl1)
      simp only [finish_run, hres, hmsg]
      refine ⟨by trivial, ?_, ?_, ?_, ?_⟩
      · intro hc
        rcases List.mem_cons.mp hc with hh | hh
        · exact Step.noConfusion hh
        · have := run_any_shape isWindows _ _ _ (hr ▸ hh)
          cases this
      · intro hc
        rcases List.mem_cons.mp hc with hh | hh
        · exact Step.noConfusion hh
        · have := run_any_shape isWindows _ _ _ (hr ▸ hh)
          cases this
      · rw [List.count_cons, hcount]
        simp
      · intro q hq
        have hq2 : ¬((strOf ".py2dist" ++ [sepC]) <+: q) := fun hcon =>
          hdisj q hcon hq
        have hst := @run_any_state_outside exitOf buildOut hbo q hq2 isWindows
          (get_compile_files e fs source_dir exclude_files)
          (clear_build_folders output_dir st0)
        rw [hst]
        exact clear_build_folders_under_output hq st0

/-- Witness for C6: a single-file run whose toolchain exits 1 fails,
never collects or purges, does not retry, and leaves nothing under
`dist/`. -/
theorem toolchain_failure_is_fatal_witness :
    (compile_run false dedupList [strOf "pkg/a.py"] (strOf "pkg") (strOf "dist")
        [] (fun _ => 1) (fun _ => []) false emptyFs).result =
      .error "Cython build failed" ∧
    Step.collect ∉ (compile_run false dedupList [strOf "pkg/a.py"] (strOf "pkg")
        (strOf "dist") [] (fun _ => 1) (fun _ => []) false emptyFs).steps ∧
    Step.purgeTmp ∉ (compile_run false dedupList [strOf "pkg/a.py"] (strOf "pkg")
        (strOf "dist") [] (fun _ => 1) (fun _ => []) false emptyFs).steps ∧
    (compile_run false dedupList [strOf "pkg/a.py"] (strOf "pkg") (strOf "dist")
        [] (fun _ => 1) (fun _ => []) false emptyFs).steps.count
      (Step.runBuild [strOf "pkg/a.py"] 1) = 1 ∧
    (compile_run false dedupList [strOf "pkg/a.py"] (strOf "pkg") (strOf "dist")
        [] (fun _ => 1) (fun _ => []) false emptyFs).state (strOf "dist/a.so") =
      none := by
  have h := toolchain_failure_is_fatal false dedupList [strOf "pkg/a.py"]
    (strOf "pkg") (strOf "dist") [] (fun _ => 1) (fun _ => []) false emptyFs
    (fun l b hb => absurd hb (List.not_mem_nil b))
    (@isPre_head_disjoint (strOf ".py2dist" ++ [sepC]) (strOf "dist" ++ [sepC])
      '.' 'd' (by decide) (by decide) (by decide))
    [strOf "pkg/a.py"] 1 (by decide) (by decide)
  exact ⟨h.1, h.2.1, h.2.2.1, h.2.2.2.1, h.2.2.2.2 (strOf "dist/a.so") (by decide)⟩

/-! ## C8 — per-file ordering and abort semantics

The compiled list passes through Python's `set` iteration, whose order
depends on the interpreter's hash seed: two runs are two admissible
enumerations, and their step traces can differ in order, refuting the
claim's "same stable order".  What does hold: membership of the
compiled set is enumeration-independent, and a failing per-file
invocation aborts every remaining invocation with no cleanup. -/

theorem dedupListRev_pySetList : PySetList dedupListRev := by
  intro l
  refine ⟨List.nodup_reverse.mpr (List.nodup_dedup l), ?_⟩
  intro x
  rw [dedupListRev, List.mem_reverse, List.mem_dedup]

/-- Counterexample to C8 as stated: two admissible `list(set(·))`
enumerations of the same unchanged tree and configuration yield
different per-file invocation orders. -/
theorem per_file_order_unstable :
    PySetList dedupList ∧ PySetList dedupListRev ∧
    (compile_run true dedupList [strOf "pkg/a.py", strOf "pkg/b.py"]
        (strOf "pkg") (strOf "dist") [] (fun _ => 0) (fun _ => []) false
        emptyFs).steps ≠
      (compile_run true dedupListRev [strOf "pkg/a.py", strOf "pkg/b.py"]
        (strOf "pkg") (strOf "dist") [] (fun _ => 0) (fun _ => []) false
        emptyFs).steps :=
  ⟨dedupList_pySetList, dedupListRev_pySetList, by decide⟩

theorem run_per_file_pre_fail {exitOf : List Path → Nat}
    {buildOut : List Path → List Path} {f : Path} {l₂ : List Path}
    (hf : exitOf [f] ≠ 0) :
    ∀ (l₁ : List Path) (st : FsState), (∀ g ∈ l₁, exitOf [g] = 0) →
      (run_per_file exitOf buildOut (l₁ ++ f :: l₂) st).1 =
        l₁.map (fun g => Step.runBuild [g] (exitOf [g])) ++
          [Step.runBuild [f] (exitOf [f])] ∧
      (run_per_file exitOf buildOut (l₁ ++ f :: l₂) st).2.1 =
        .error "Cython build failed" := by
  intro l₁
  induction l₁ with
  | nil =>
    intro st _
    rw [List.nil_append, run_per_file]
    simp only [hf, if_false]
    exact ⟨by simp, by trivial⟩
  | cons g rest ih =>
    intro st hall
    have hg : exitOf [g] = 0 := hall g (List.mem_cons_self _ _)
    rw [List.cons_append, run_per_file]
    simp only [hg, if_true]
    have hrec := ih
      (run_build_fs [g] exitOf buildOut (applyOp st (generate_build_script_op [g])))
      (fun x hx => hall x (List.mem_cons_of_mem _ hx))
    refine ⟨?_, hrec.2⟩
    rw [List.map_cons, List.cons_append, hrec.1, hg]

/-- C8, amended.  Membership of the compiled set is stable across runs
(it does not depend on the `list(set(·))` enumeration — but the
processing order may differ between runs); and on the per-file platform
path, failure of one file's invocation aborts all remaining
invocations, with no collection and no cleanup. -/
theorem per_file_membership_stable_and_abort
    (e₁ e₂ : List Path → List Path) (he₁ : PySetList e₁) (he₂ : PySetList e₂)
    (fs : List Path) (source_dir output_dir : Path) (exclude_files : List Path)
    (exitOf : List Path → Nat) (buildOut : List Path → List Path)
    (release : Bool) (st0 : FsState) (l₁ l₂ : List Path) (f : Path)
    (hdecomp : get_compile_files e₁ fs source_dir exclude_files = l₁ ++ f :: l₂)
    (hok : ∀ g ∈ l₁, exitOf [g] = 0) (hf : exitOf [f] ≠ 0)
    (hsep2 : ∀ g ∈ l₂, g ∉ l₁ ∧ g ≠ f) :
    (∀ x, x ∈ get_compile_files e₁ fs source_dir exclude_files ↔
      x ∈ get_compile_files e₂ fs source_dir exclude_files) ∧
    (compile_run true e₁ fs source_dir output_dir exclude_files exitOf buildOut
        release st0).steps =
      Step.clearFolders :: (l₁.map (fun g => Step.runBuild [g] (exitOf [g])) ++
        [Step.runBuild [f] (exitOf [f])]) ∧
    (compile_run true e₁ fs source_dir output_dir exclude_files exitOf buildOut
        release st0).result = .error "Cython build failed" ∧
    (∀ g ∈ l₂, ∀ c, Step.runBuild [g] c ∉
      (compile_run true e₁ fs source_dir output_dir exclude_files exitOf
        buildOut release st0).steps) ∧
    Step.collect ∉ (compile_run true e₁ fs source_dir output_dir exclude_files
      exitOf buildOut release st0).steps ∧
    Step.purgeTmp ∉ (compile_run true e₁ fs source_dir output_dir exclude_files
      exitOf buildOut release st0).steps := by
  have hmemb : ∀ x, x ∈ get_compile_files e₁ fs source_dir exclude_files ↔
      x ∈ get_compile_files e₂ fs source_dir exclude_files := by
    intro x
    rw [mem_get_compile_files he₁, mem_get_compile_files he₂]
  have hpf := @run_per_file_pre_fail exitOf buildOut f l₂ hf l₁
    (clear_build_folders output_dir st0) hok
  have hrun : compile_run true e₁ fs source_dir output_dir exclude_files exitOf
      buildOut release st0 =
      ⟨Step.clearFolders :: (l₁.map (fun g => Step.runBuild [g] (exitOf [g])) ++
          [Step.runBuild [f] (exitOf [f])]),
        .error "Cython build failed",
        (run_per_file exitOf buildOut (l₁ ++ f :: l₂)
          (clear_build_folders output_dir st0)).2.2.1⟩ := by
    rw [compile_run]
    have hne' : (l₁ ++ f :: l₂).isEmpty = false := by cases l₁ <;> rfl
    simp only [hdecomp, hne', Bool.false_eq_true, if_false, if_true, finish_run]
    rw [hpf.2, hpf.1]
  rw [hrun]
  refine ⟨hmemb, rfl, rfl, ?_, ?_, ?_⟩
  · intro g hg c hmem
    rcases List.mem_cons.mp hmem with hh | hh
    · exact Step.noConfusion hh
    · rcases List.mem_append.mp hh with hh2 | hh2
      · rcases List.mem_map.mp hh2 with ⟨g', hg', heq⟩
        have hinj := (Step.runBuild.injEq .. ).mp heq.symm
        have : g = g' := by
          injection hinj.1
        rw [this] at hg
        exact (hsep2 g' (this ▸ hg)).1 hg'
      · rw [List.mem_singleton] at hh2
        have hinj := (Step.runBuild.injEq .. ).mp hh2
        have : g = f := by
          injection hinj.1
        exact (hsep2 g hg).2 this
  · intro hmem
    rcases List.mem_cons.mp hmem with hh | hh
    · exact Step.noConfusion hh
    · rcases List.mem_append.mp hh with hh2 | hh2
      · rcases List.mem_map.mp hh2 with ⟨g', _, heq⟩
        exact Step.noConfusion heq
      · rw [List.mem_singleton] at hh2
        exact Step.noConfusion hh2
  · intro hmem
    rcases List.mem_cons.mp hmem with hh | hh
    · exact Step.noConfusion hh
    · rcases List.mem_append.mp hh with hh2 | hh2
      · rcases List.mem_map.mp hh2 with ⟨g', _, heq⟩
        exact Step.noConfusion heq
      · rw [List.mem_singleton] at hh2
        exact Step.noConfusion hh2

/-- Witness for the amended C8: `pkg/a.py` succeeds, `pkg/b.py` fails;
the trace stops at the failure with no collection and no cleanup, and
membership agrees between two different enumerations. -/
theorem per_file_membership_stable_and_abort_witness :
    (strOf "pkg/a.py" ∈ get_compile_files dedupList
        [strOf "pkg/a.py", strOf "pkg/b.py"] (strOf "pkg") [] ↔
      strOf "pkg/a.py" ∈ get_compile_files dedupListRev
        [strOf "pkg/a.py", strOf "pkg/b.py"] (strOf "pkg") []) ∧
    (compile_run true dedupList [strOf "pkg/a.py", strOf "pkg/b.py"]
        (strOf "pkg") (strOf "dist") []
        (fun l => if l = [strOf "pkg/b.py"] then 1 else 0) (fun _ => []) false
        emptyFs).steps =
      Step.clearFolders ::
        ([strOf "pkg/a.py"].map (fun g => Step.runBuild [g]
          (if [g] = [strOf "pkg/b.py"] then 1 else 0)) ++
         [Step.runBuild [strOf "pkg/b.py"]
           (if [strOf "pkg/b.py"] = [strOf "pkg/b.py"] then 1 else 0)]) ∧
    (compile_run true dedupList [strOf "pkg/a.py", strOf "pkg/b.py"]
        (strOf "pkg") (strOf "dist") []
        (fun l => if l = [strOf "pkg/b.py"] then 1 else 0) (fun _ => []) false
        emptyFs).result = .error "Cython build failed" ∧
    Step.collect ∉ (compile_run true dedupList
        [strOf "pkg/a.py", strOf "pkg/b.py"] (strOf "pkg") (strOf "dist") []
        (fun l => if l = [strOf "pkg/b.py"] then 1 else 0) (fun _ => []) false
        emptyFs).steps ∧
    Step.purgeTmp ∉ (compile_run true dedupList
        [strOf "pkg/a.py", strOf "pkg/b.py"] (strOf "pkg") (strOf "dist") []
        (fun l => if l = [strOf "pkg/b.py"] then 1 else 0) (fun _ => []) false
        emptyFs).steps := by
  have h := per_file_membership_stable_and_abort dedupList dedupListRev
    dedupList_pySetList dedupListRev_pySetList
    [strOf "pkg/a.py", strOf "pkg/b.py"] (strOf "pkg") (strOf "dist") []
    (fun l => if l = [strOf "pkg/b.py"] then 1 else 0) (fun _ => []) false
    emptyFs [strOf "pkg/a.py"] [] (strOf "pkg/b.py") (by decide) (by decide)
    (by decide) (by decide)
  exact ⟨h.1 (strOf "pkg/a.py"), h.2.1, h.2.2.1, h.2.2.2.2.1, h.2.2.2.2.2⟩

/-! ## C5 — output collection never deletes distribution-tree files

`_collect_output` only writes; its sole removals are the `__pycache__`
byproducts of `_compile_init_to_pyc`, which live next to the *source*
init file — never in the distribution tree.  The lemmas below locate
those removal paths under `source_dir`. -/

theorem dropWhile_ne_spec {x : Char} :
    ∀ {L : Path}, x ∈ L →
      ∃ rest, L.dropWhile (fun c => c ≠ x) = x :: rest := by
  intro L
  induction L with
  | nil => intro h; cases h
  | cons c t ih =>
    intro h
    by_cases hc : c = x
    · subst hc
      refine ⟨t, ?_⟩
      rw [List.dropWhile_cons]
      simp
    · rcases List.mem_cons.mp h with heq | h2
      · exact absurd heq.symm hc
      · obtain ⟨rest, hrest⟩ := ih h2
        refine ⟨rest, ?_⟩
        rw [List.dropWhile_cons, if_pos (decide_eq_true hc)]
        exact hrest

theorem dirName_join {src rel : Path} (hsrc : ValidDirPath src)
    (hrel : ValidRelPath rel) :
    dirName (src ++ sepC :: rel) = src ∨
    ∃ w, dirName (src ++ sepC :: rel) = src ++ sepC :: w := by
  obtain ⟨c, srcT, hsrcEq, hcne⟩ : ∃ c t, src = c :: t ∧ c ≠ sepC := by
    cases hsp : src with
    | nil => exact absurd hsp hsrc.1
    | cons c t =>
      refine ⟨c, t, rfl, ?_⟩
      intro hceq
      exact hsrc.2.1 ⟨t, by rw [hsp, hceq, List.singleton_append]⟩
  have hsrcrev : List.dropWhile (fun c => c = sepC) src.reverse = src.reverse := by
    cases hsr : src.reverse with
    | nil => rfl
    | cons c' t' =>
      rw [List.dropWhile_cons]
      have hc' : c' ≠ sepC := by
        intro hceq
        apply hsrc.2.2
        refine ⟨t'.reverse, ?_⟩
        rw [← List.reverse_reverse src, hsr, hceq]
        simp
      simp [hc']
  simp only [dirName]
  have hrev : (src ++ sepC :: rel).reverse = rel.reverse ++ sepC :: src.reverse := by
    simp
  rw [hrev]
  by_cases hmem : sepC ∈ rel
  · obtain ⟨rest, hrest⟩ := dropWhile_ne_spec (List.mem_reverse.mpr hmem)
    cases hrestc : rest with
    | nil =>
      exfalso
      have hsplit := List.takeWhile_append_dropWhile (fun c => c ≠ sepC) rel.reverse
      rw [hrest, hrestc] at hsplit
      apply hrel.2.1
      refine ⟨(List.takeWhile (fun c => c ≠ sepC) rel.reverse).reverse, ?_⟩
      have h5 := congrArg List.reverse hsplit
      simp only [List.reverse_append, List.reverse_cons, List.reverse_nil,
        List.nil_append, List.reverse_reverse, List.singleton_append] at h5 ⊢
      exact h5
    | cons c0 rest' =>
      have hc0 : c0 ≠ sepC := by
        intro hceq
        apply hrel.2.2.2
        have hsplit := List.takeWhile_append_dropWhile (fun c => c ≠ sepC) rel.reverse
        rw [hrest, hrestc, hceq] at hsplit
        refine ⟨rest'.reverse,
          (List.takeWhile (fun c => c ≠ sepC) rel.reverse).reverse, ?_⟩
        have h5 := congrArg List.reverse hsplit
        simp only [List.reverse_append, List.reverse_cons, List.reverse_reverse,
          List.append_assoc, List.singleton_append, List.cons_append,
          List.nil_append] at h5 ⊢
        exact h5
      have hdw : List.dropWhile (fun c => c ≠ sepC)
          (rel.reverse ++ sepC :: src.reverse) =
          (sepC :: rest) ++ sepC :: src.reverse := by
        rw [List.dropWhile_append, hrest]
        simp
      rw [hdw]
      have hhead : ((sepC :: rest) ++ sepC :: src.reverse).reverse =
          src ++ sepC :: (rest.reverse ++ [sepC]) := by
        simp
      rw [hhead]
      rw [if_neg (by simp : (src ++ sepC :: (rest.reverse ++ [sepC]) : Path) ≠ [])]
      have hall : (src ++ sepC :: (rest.reverse ++ [sepC])).all
          (fun c => c = sepC) = false := by
        rw [hsrcEq]
        simp [hcne]
      rw [hall]
      simp only [Bool.false_eq_true, if_false]
      have hr2 : (src ++ sepC :: (rest.reverse ++ [sepC])).reverse =
          sepC :: (rest ++ sepC :: src.reverse) := by
        simp
      rw [hr2, List.dropWhile_cons]
      simp only [decide_eq_true_eq, if_pos rfl]
      rw [hrestc, List.cons_append, List.dropWhile_cons,
        if_neg (by simp [hc0] : ¬(decide (c0 = sepC) = true))]
      right
      exact ⟨(c0 :: rest').reverse, by simp⟩
  · have hdw : List.dropWhile (fun c => c ≠ sepC)
        (rel.reverse ++ sepC :: src.reverse) = sepC :: src.reverse := by
      rw [List.dropWhile_append]
      have h1 : List.dropWhile (fun c => c ≠ sepC) rel.reverse = [] := by
        rw [List.dropWhile_eq_nil_iff]
        intro x hx
        simp only [ne_eq, decide_eq_true_eq]
        intro hxeq
        exact hmem (hxeq ▸ List.mem_reverse.mp hx)
      rw [h1]
      simp
    rw [hdw]
    have hhead : (sepC :: src.reverse).reverse = src ++ [sepC] := by simp
    rw [hhead]
    rw [if_neg (by simp : (src ++ [sepC] : Path) ≠ [])]
    have hall : (src ++ [sepC]).all (fun c => c = sepC) = false := by
      rw [hsrcEq]
      simp [hcne]
    rw [hall]
    simp only [Bool.false_eq_true, if_false]
    have hr2 : (src ++ [sepC]).reverse = sepC :: src.reverse := by simp
    rw [hr2, List.dropWhile_cons]
    simp only [decide_eq_true_eq, if_pos rfl]
    rw [hsrcrev]
    left
    simp

/-- A member of `filesUnder fs D` of a well-formed filesystem is itself
a well-formed relative path. -/
theorem filesUnder_validRel {fs : List Path} {D rel : Path} (hfs : ValidFs fs)
    (hD : D ≠ []) (hf : rel ∈ filesUnder fs D) : ValidRelPath rel := by
  rcases (mem_filesUnder hD).mp hf with ⟨p, hp, hpre, rfl⟩
  have hvp := hfs p hp
  obtain ⟨t, rfl⟩ : ∃ t, p = (D ++ [sepC]) ++ t := by
    rcases pyStartsWith_iff.mp hpre with ⟨t, ht⟩
    exact ⟨t, ht.symm⟩
  have hdrop : ((D ++ [sepC]) ++ t).drop (D.length + 1) = t := by
    have hlen : (D ++ [sepC]).length = D.length + 1 := by simp
    rw [← hlen, List.drop_left]
  rw [hdrop]
  refine ⟨?_, ?_, ?_, ?_⟩
  · rintro rfl
    exact hvp.2.2.1 ⟨D, by simp⟩
  · rintro ⟨t', rfl⟩
    exact hvp.2.2.2 ⟨D, t', by simp⟩
  · rintro ⟨t', rfl⟩
    exact hvp.2.2.1 ⟨(D ++ [sepC]) ++ t', by simp⟩
  · rintro ⟨s, t', hinf⟩
    exact hvp.2.2.2 ⟨(D ++ [sepC]) ++ s, t', by rw [← hinf]; simp⟩

theorem sep_not_mem_fileName (p : Path) : sepC ∉ fileName p := by
  intro h
  rw [fileName, List.mem_reverse] at h
  have := List.mem_takeWhile_imp h
  simp at this

/-- The cache filename `_compile_init_to_pyc` looks for never starts
with a separator (its characters come from the basename and the
tag). -/
theorem cacheName_not_sep_start (p : Path) :
    ¬([sepC] <+: (splitExtRoot (fileName p) ++ '.' :: (pycTag ++ strOf ".pyc"))) := by
  intro h
  cases hA : splitExtRoot (fileName p) with
  | nil =>
    rw [hA, List.nil_append] at h
    rcases h with ⟨t, ht⟩
    rw [List.singleton_append] at ht
    injection ht with h1 _
    exact absurd h1 (by decide)
  | cons c A' =>
    rw [hA, List.cons_append] at h
    rcases h with ⟨t, ht⟩
    rw [List.singleton_append] at ht
    injection ht with h1 _
    apply sep_not_mem_fileName p
    rw [h1]
    exact List.take_subset _ _ (hA ▸ List.mem_cons_self c A')

/-- The removal performed by `_compile_init_to_pyc` for a source file
`source_dir/rel` lies under `source_dir`. -/
theorem pycCacheFile_under_source {source_dir rel : Path}
    (hsrc : ValidDirPath source_dir) (hrel : ValidRelPath rel) :
    (source_dir ++ [sepC]) <+: pycCacheFile (pathJoin source_dir rel) := by
  have hg : pathJoin source_dir rel = source_dir ++ sepC :: rel :=
    pathJoin_eq_append hrel.2.1 hsrc.1 hsrc.2.2
  rw [pycCacheFile, hg]
  have hcache : (source_dir ++ [sepC]) <+:
      pathJoin (dirName (source_dir ++ sepC :: rel)) (strOf "__pycache__") := by
    rcases dirName_join hsrc hrel with hdn | ⟨w, hdn⟩
    · rw [hdn, pathJoin_eq_append (by decide) hsrc.1 hsrc.2.2]
      exact ⟨strOf "__pycache__", by simp⟩
    · rw [hdn]
      exact pathJoin_keeps_isPre ⟨w, by simp⟩ (by simp) (by decide)
  refine pathJoin_keeps_isPre hcache ?_ (cacheName_not_sep_start _)
  intro hnil
  have := hcache
  rw [hnil] at this
  have hlen := this.length_le
  simp [hsrc.1] at hlen

/-- The only removals in `_collect_output` are `__pycache__` byproducts
next to the source files — every removal path is under `source_dir`. -/
theorem collect_remove_under_source {e : List Path → List Path}
    {fs : List Path} {output_dir source_dir : Path} {buildTree cf : List Path}
    (he : PySetList e) (hfs : ValidFs fs) (hsrc : ValidDirPath source_dir) :
    ∀ p, FsOp.remove p ∈
        collect_output_ops e fs output_dir source_dir buildTree cf →
      (source_dir ++ [sepC]) <+: p := by
  intro p hp
  rw [collect_output_ops] at hp
  rcases List.mem_append.mp hp with h1 | h1
  · rcases List.mem_map.mp h1 with ⟨b, _, heq⟩
    simp [collect_native_op] at heq
  · rcases List.mem_flatMap.mp h1 with ⟨g, hg, hin⟩
    by_cases hs : pyEndsWith g (strOf "__init__.py") = true
    · simp only [collect_non_compile_op, hs, if_true, compile_init_to_pyc_ops,
        List.mem_cons, List.mem_singleton, List.not_mem_nil, or_false] at hin
      rcases hin with hh | hh | hh
      · exact absurd hh (by simp)
      · exact absurd hh (by simp)
      · have hpeq : p = pycCacheFile g := (FsOp.remove.injEq .. ).mp hh
        rcases (mem_get_non_compile_files he).mp hg with ⟨hall, _⟩
        rcases mem_all_non_pyc_files.mp hall with ⟨rel, hrelU, _, rfl⟩
        rw [hpeq]
        exact pycCacheFile_under_source hsrc
          (filesUnder_validRel hfs hsrc.1 hrelU)
    · simp only [collect_non_compile_op, hs, if_false, Bool.false_eq_true,
        List.mem_singleton] at hin
      exact absurd hin (by simp)

/-- C5.  Output collection into a non-empty distribution tree
overwrites same-named artifacts but never deletes unrelated
pre-existing files in the distribution tree: any path under
`output_dir` the collection does not write is left exactly as it was,
and any file present under `output_dir` before collection is still
present afterwards. -/
theorem collect_preserves_distribution_tree
    (e : List Path → List Path) (he : PySetList e) (fs : List Path)
    (output_dir source_dir : Path) (buildTree cf : List Path) (st : FsState)
    (hfs : ValidFs fs) (hsrc : ValidDirPath source_dir)
    (hsep : ∀ q, (source_dir ++ [sepC]) <+: q → ¬((output_dir ++ [sepC]) <+: q)) :
    (∀ q, (output_dir ++ [sepC]) <+: q →
      (∀ c, FsOp.write q c ∉
        collect_output_ops e fs output_dir source_dir buildTree cf) →
      applyOps (collect_output_ops e fs output_dir source_dir buildTree cf)
        st q = st q) ∧
    (∀ q, (output_dir ++ [sepC]) <+: q → st q ≠ none →
      applyOps (collect_output_ops e fs output_dir source_dir buildTree cf)
        st q ≠ none) := by
  constructor
  · intro q hq hnw
    apply applyOps_frame
    intro op hop
    cases op with
    | write p c =>
      intro hpq
      rw [FsOp.pathOf] at hpq
      rw [hpq] at hop
      exact hnw c hop
    | remove p =>
      intro hpq
      rw [FsOp.pathOf] at hpq
      have := collect_remove_under_source he hfs hsrc p hop
      rw [hpq] at this
      exact hsep q this hq
  · intro q hq hne
    apply applyOps_keeps
    · intro p hp hpq
      have := collect_remove_under_source he hfs hsrc p hp
      rw [hpq] at this
      exact hsep q this hq
    · exact hne

/-- Witness for C5: a pre-existing unrelated file `dist/old.txt`
survives a collection that writes a native artifact, an init bytecode
artifact and a verbatim copy into `dist/`. -/
theorem collect_preserves_distribution_tree_witness :
    (applyOps
        (collect_output_ops dedupList
          [strOf "pkg/__init__.py", strOf "pkg/a.py"] (strOf "dist")
          (strOf "pkg") [strOf "pkg/a.so"]
          (get_compile_files dedupList
            [strOf "pkg/__init__.py", strOf "pkg/a.py"] (strOf "pkg") []))
        (fun q => if q = strOf "dist/old.txt" then
          some (FsContent.blob (strOf "old")) else none) (strOf "dist/old.txt") =
      (fun q => if q = strOf "dist/old.txt" then
        some (FsContent.blob (strOf "old")) else none) (strOf "dist/old.txt")) ∧
    (applyOps
        (collect_output_ops dedupList
          [strOf "pkg/__init__.py", strOf "pkg/a.py"] (strOf "dist")
          (strOf "pkg") [strOf "pkg/a.so"]
          (get_compile_files dedupList
            [strOf "pkg/__init__.py", strOf "pkg/a.py"] (strOf "pkg") []))
        (fun q => if q = strOf "dist/old.txt" then
          some (FsContent.blob (strOf "old")) else none) (strOf "dist/old.txt") ≠
      none) := by
  have h := collect_preserves_distribution_tree dedupList dedupList_pySetList
    [strOf "pkg/__init__.py", strOf "pkg/a.py"] (strOf "dist") (strOf "pkg")
    [strOf "pkg/a.so"]
    (get_compile_files dedupList
      [strOf "pkg/__init__.py", strOf "pkg/a.py"] (strOf "pkg") [])
    (fun q => if q = strOf "dist/old.txt" then
      some (FsContent.blob (strOf "old")) else none)
    (by intro p hp; fin_cases hp <;>
      exact ⟨by decide, by decide, by decide, by decide⟩)
    ⟨by decide, by decide, by decide⟩
    (@isPre_head_disjoint (strOf "pkg" ++ [sepC]) (strOf "dist" ++ [sepC])
      'p' 'd' (by decide) (by decide) (by decide))
  refine ⟨h.1 (strOf "dist/old.txt") (by decide) ?_,
    h.2 (strOf "dist/old.txt") (by decide) (by decide)⟩
  intro c hc
  exact (by decide : ∀ op ∈
      collect_output_ops dedupList
        [strOf "pkg/__init__.py", strOf "pkg/a.py"] (strOf "dist")
        (strOf "pkg") [strOf "pkg/a.so"]
        (get_compile_files dedupList
          [strOf "pkg/__init__.py", strOf "pkg/a.py"] (strOf "pkg") []),
      FsOp.pathOf op ≠ strOf "dist/old.txt") _ hc rfl

/-! ## C10 — an empty compile set fails fast -/

theorem compile_run_of_empty (isWindows : Bool) (e : List Path → List Path)
    (fs : List Path) (source_dir output_dir : Path) (exclude_files : List Path)
    (exitOf : List Path → Nat) (buildOut : List Path → List Path)
    (release : Bool) (st0 : FsState)
    (h : get_compile_files e fs source_dir exclude_files = []) :
    compile_run isWindows e fs source_dir output_dir exclude_files exitOf
        buildOut release st0 =
      ⟨[], .error "No files to compile", st0⟩ := by
  simp [compile_run, h]

/-- C10.  When resolution yields an empty native-compile set, the run
fails with the "No files to compile" error, performs no step (no
workspace clearing, no toolchain invocation, no collection) and leaves
the filesystem untouched. -/
theorem empty_compile_set_fails_fast (isWindows : Bool)
    (e : List Path → List Path) (fs : List Path)
    (source_dir output_dir : Path) (exclude_files : List Path)
    (exitOf : List Path → Nat) (buildOut : List Path → List Path)
    (release : Bool) (st0 : FsState)
    (h : get_compile_files e fs source_dir exclude_files = []) :
    (compile_run isWindows e fs source_dir output_dir exclude_files exitOf
        buildOut release st0).result = .error "No files to compile" ∧
    (compile_run isWindows e fs source_dir output_dir exclude_files exitOf
        buildOut release st0).steps = [] ∧
    ∀ q, (compile_run isWindows e fs source_dir output_dir exclude_files exitOf
        buildOut release st0).state q = st0 q := by
  rw [compile_run_of_empty isWindows e fs source_dir output_dir exclude_files
    exitOf buildOut release st0 h]
  exact ⟨rfl, rfl, fun q => rfl⟩

/-- Witness for C10: a tree holding only a package-init file resolves
to the empty compile set, and the run errors without any step. -/
theorem empty_compile_set_fails_fast_witness :
    (compile_run false dedupList [strOf "pkg/__init__.py"] (strOf "pkg")
        (strOf "dist") [] (fun _ => 0) (fun _ => []) false emptyFs).result =
      .error "No files to compile" ∧
    (compile_run false dedupList [strOf "pkg/__init__.py"] (strOf "pkg")
        (strOf "dist") [] (fun _ => 0) (fun _ => []) false emptyFs).steps = [] ∧
    ∀ q, (compile_run false dedupList [strOf "pkg/__init__.py"] (strOf "pkg")
        (strOf "dist") [] (fun _ => 0) (fun _ => []) false emptyFs).state q =
      emptyFs q :=
  empty_compile_set_fails_fast false dedupList [strOf "pkg/__init__.py"]
    (strOf "pkg") (strOf "dist") [] (fun _ => 0) (fun _ => []) false emptyFs
    (by decide)

/-! ## C4 — bytecode target equal to the source directory

The claim's final clause is false on the code: the interaction does
empty the native compile set, but `Compiler.compile` then raises
`"No files to compile"`, `cli.main` prints the error and exits 1, and
the bytecode step is never reached — the run does not complete. -/

theorem drop_pathJoin {a f : Path} (hf : ¬([sepC] <+: f)) (ha : a ≠ [])
    (ha2 : ¬([sepC] <:+ a)) : (pathJoin a f).drop (a.length + 1) = f := by
  rw [pathJoin_eq_append hf ha ha2]
  have hform : a ++ sepC :: f = (a ++ [sepC]) ++ f := by simp
  rw [hform]
  have hl : (a ++ [sepC]).length = a.length + 1 := by simp
  rw [← hl, List.drop_left]

theorem pathJoin_ne_self {a f : Path} (hf : ¬([sepC] <+: f)) (ha : a ≠ [])
    (ha2 : ¬([sepC] <:+ a)) : pathJoin a f ≠ a := by
  rw [pathJoin_eq_append hf ha ha2]
  intro hcontra
  have := congrArg List.length hcontra
  simp at this

/-- Counterexample to C4 as stated: with the bytecode target equal to
`sourceDir`, the run does not complete with files bytecode-compiled —
it exits with the "No files to compile" error before the bytecode step
runs. -/
theorem bytecode_self_target_run_errors :
    cli_main_dir false dedupList [strOf "pkg/a.py"] (strOf "pkg") (strOf "dist")
      [] (some (strOf "pkg")) (fun _ => 0) (fun _ => []) false emptyFs =
    CliOutcome.errorExit "No files to compile" := rfl

/-- C4, amended.  When the bytecode target equals `sourceDir`, every
compilable source file is added to the native-compile exclusion set and
the native compiled set becomes empty; the run then fails with
"No files to compile" before any compilation, and the bytecode step is
not reached. -/
theorem bytecode_self_target_excludes_all (isWindows : Bool)
    (e : List Path → List Path) (he : PySetList e) (fs : List Path)
    (source_dir output_dir : Path) (exclude_entries : List Path)
    (exitOf : List Path → Nat) (buildOut : List Path → List Path)
    (release : Bool) (st0 : FsState)
    (hsrcv : ValidDirPath source_dir)
    (hsrc1 : pyRstrip source_dir [sepC] = source_dir)
    (hsrc2 : pyRstrip source_dir [sepC, '\\'] = source_dir)
    (hfile : isFile fs source_dir = false)
    (hdir : isDir fs source_dir = true)
    (hsane : ∀ f ∈ filesUnder fs source_dir, ¬([sepC] <+: f)) :
    (∀ f ∈ filesUnder fs source_dir,
      match_ext (some [strOf ".py"]) (fileName f) = true →
        f ∈ get_bytecode_excludes fs source_dir source_dir) ∧
    get_compile_files e fs source_dir
      (e (parse_exclude_files fs exclude_entries source_dir ++
          get_bytecode_excludes fs source_dir source_dir)) = [] ∧
    cli_main_dir isWindows e fs source_dir output_dir exclude_entries
        (some source_dir) exitOf buildOut release st0 =
      CliOutcome.errorExit "No files to compile" := by
  have hbyte : ∀ f ∈ filesUnder fs source_dir,
      match_ext (some [strOf ".py"]) (fileName f) = true →
        f ∈ get_bytecode_excludes fs source_dir source_dir := by
    intro f hf hmatch
    rw [get_bytecode_excludes]
    simp only [hsrc2, if_pos, Bool.not_eq_true]
    rw [if_neg, if_neg, if_pos hdir]
    · refine List.mem_map.mpr ⟨f, ?_, ?_⟩
      · rw [get_files_in_dir]
        exact List.mem_filter.mpr ⟨hf, hmatch⟩
      · rw [relpath_under,
          if_neg (pathJoin_ne_self (hsane f hf) hsrcv.1 hsrcv.2.2),
          drop_pathJoin (hsane f hf) hsrcv.1 hsrcv.2.2]
    · rw [hfile]
      simp
    · simp
  have hempty : get_compile_files e fs source_dir
      (e (parse_exclude_files fs exclude_entries source_dir ++
          get_bytecode_excludes fs source_dir source_dir)) = [] := by
    rw [get_compile_files, compile_files_rel]
    have hfilter : ((get_files_in_dir fs source_dir (some [strOf ".py"])).filter
        (fun f => ! pyEndsWith f (strOf "__init__.py"))).filter
        (fun f => decide (f ∉ e (parse_exclude_files fs exclude_entries source_dir ++
          get_bytecode_excludes fs source_dir source_dir))) = [] := by
      rw [List.filter_eq_nil_iff]
      intro f hf
      rcases List.mem_filter.mp hf with ⟨hf1, _⟩
      rcases List.mem_filter.mp hf1 with ⟨hfU, hmatch⟩
      simp only [decide_eq_true_eq, not_not, Decidable.not_not]
      exact ((he _).2 f).mpr
        (List.mem_append.mpr (Or.inr (hbyte f hfU hmatch)))
    rw [hfilter]
    have : ∀ x, x ∉ e [] := fun x hx => by
      have := ((he []).2 x).mp hx
      cases this
    rw [List.eq_nil_iff_forall_not_mem.mpr this]
    rfl
  refine ⟨hbyte, hempty, ?_⟩
  rw [cli_main_dir]
  simp only [hsrc1]
  rw [compile_run_of_empty isWindows e fs source_dir output_dir _ exitOf
    buildOut release st0 hempty]

/-- Witness for the amended C4. -/
theorem bytecode_self_target_excludes_all_witness :
    (∀ f ∈ filesUnder [strOf "pkg/a.py"] (strOf "pkg"),
      match_ext (some [strOf ".py"]) (fileName f) = true →
        f ∈ get_bytecode_excludes [strOf "pkg/a.py"] (strOf "pkg") (strOf "pkg")) ∧
    get_compile_files dedupList [strOf "pkg/a.py"] (strOf "pkg")
      (dedupList (parse_exclude_files [strOf "pkg/a.py"] [] (strOf "pkg") ++
          get_bytecode_excludes [strOf "pkg/a.py"] (strOf "pkg") (strOf "pkg"))) =
      [] ∧
    cli_main_dir false dedupList [strOf "pkg/a.py"] (strOf "pkg") (strOf "dist")
        [] (some (strOf "pkg")) (fun _ => 0) (fun _ => []) false emptyFs =
      CliOutcome.errorExit "No files to compile" :=
  bytecode_self_target_excludes_all false dedupList dedupList_pySetList
    [strOf "pkg/a.py"] (strOf "pkg") (strOf "dist") [] (fun _ => 0) (fun _ => [])
    false emptyFs ⟨by decide, by decide, by decide⟩ (by decide) (by decide)
    (by decide) (by decide) (by decide)

/-! ## C7 — exclusion boundary semantics -/

theorem pyStartsWith_eq_false_iff {s t : Path} :
    pyStartsWith s t = false ↔ ¬(t <+: s) := by
  simp [pyStartsWith]

/-- C7.  An exclusion entry equal to the source root contributes
nothing; a trailing-separator directory entry expands to exactly the
files under that directory in the tree given at resolution time, so a
path not under the directory in that tree is not excluded. -/
theorem exclusion_boundary
    (fs : List Path) (root_dir raw d : Path)
    (hroot : root_dir ≠ [])
    (hraw : normalizeSeps (pyStrip raw) = normalizeSeps root_dir)
    (hrootv : ValidDirPath root_dir)
    (hd : ValidDirPath d)
    (hdstrip : pyStrip (d ++ [sepC]) = d ++ [sepC])
    (hdnorm : normalizeSeps (d ++ [sepC]) = d ++ [sepC])
    (hdpre : pyStartsWith (d ++ [sepC]) (normalizeSeps root_dir ++ [sepC]) = false)
    (hdne : d ++ [sepC] ≠ normalizeSeps root_dir)
    (hfs : ValidFs fs) :
    parse_exclude_entry fs root_dir raw = [] ∧
    (∀ p, p ∈ parse_exclude_entry fs root_dir (d ++ [sepC]) ↔
      ∃ f ∈ filesUnder fs (pathJoin root_dir d), p = pathJoin d f) ∧
    (∀ f', ¬([sepC] <+: f') → f' ∉ filesUnder fs (pathJoin root_dir d) →
      pathJoin d f' ∉ parse_exclude_entry fs root_dir (d ++ [sepC])) := by
  have hne : pyStrip raw ≠ [] := by
    intro h0
    apply hroot
    apply normalizeSeps_eq_nil
    rw [← hraw, h0]
    rfl
  have hps : ¬(normalizeSeps root_dir ++ [sepC] <+: normalizeSeps root_dir) :=
    not_append_sep_isPre _ _
  have hD : pathJoin root_dir d = root_dir ++ sepC :: d :=
    pathJoin_eq_append hd.2.1 hrootv.1 hrootv.2.2
  have hDne : pathJoin root_dir d ≠ [] := by
    rw [hD]
    simp
  have hexpand : parse_exclude_entry fs root_dir (d ++ [sepC]) =
      (get_files_in_dir fs (pathJoin root_dir d) none).map (fun f => pathJoin d f) := by
    have hne2 : (d ++ [sepC] : Path) ≠ [] := by simp
    have hsfx : pyEndsWith (d ++ [sepC]) [sepC] = true :=
      pyEndsWith_iff.mpr ⟨d, rfl⟩
    rw [parse_exclude_entry]
    simp only [hdstrip, if_neg hne2, hdnorm, hdpre, Bool.false_eq_true, if_false,
      if_neg hdne, exclude_entry_expansion, hsfx, if_true,
      pyRstrip_append_sep hd.2.2]
  refine ⟨?_, ?_, ?_⟩
  · rw [parse_exclude_entry]
    simp only [if_neg hne, hraw, pyStartsWith, decide_eq_true_eq]
    rw [if_neg hps]
    simp
  · intro p
    rw [hexpand, get_files_in_dir_none]
    constructor
    · intro hp
      rcases List.mem_map.mp hp with ⟨f, hf, rfl⟩
      exact ⟨f, hf, rfl⟩
    · rintro ⟨f, hf, rfl⟩
      exact List.mem_map.mpr ⟨f, hf, rfl⟩
  · intro f' hf'1 hf'2 hmem
    rw [hexpand, get_files_in_dir_none] at hmem
    rcases List.mem_map.mp hmem with ⟨f, hf, heq⟩
    have hfv := filesUnder_valid hfs hDne hf
    have : f = f' := pathJoin_cancel hfv.2 hf'1 hd.1 hd.2.2 heq
    rw [this] at hf
    exact hf'2 hf

/-- Witness for C7: root `pkg`, entry `pkg` itself (excludes nothing)
and entry `sub/` (expands to exactly `sub/b.py`; the later file
`sub/c.py`, absent from the tree, is not excluded). -/
theorem exclusion_boundary_witness :
    (parse_exclude_entry
        [strOf "pkg/a.py", strOf "pkg/sub/b.py", strOf "pkg/__init__.py",
         strOf "pkg/data.json"] (strOf "pkg") (strOf "pkg") = []) ∧
    (strOf "sub/b.py" ∈ parse_exclude_entry
        [strOf "pkg/a.py", strOf "pkg/sub/b.py", strOf "pkg/__init__.py",
         strOf "pkg/data.json"] (strOf "pkg") (strOf "sub/") ↔
      ∃ f ∈ filesUnder
        [strOf "pkg/a.py", strOf "pkg/sub/b.py", strOf "pkg/__init__.py",
         strOf "pkg/data.json"] (pathJoin (strOf "pkg") (strOf "sub")),
        strOf "sub/b.py" = pathJoin (strOf "sub") f) ∧
    (pathJoin (strOf "sub") (strOf "c.py") ∉ parse_exclude_entry
        [strOf "pkg/a.py", strOf "pkg/sub/b.py", strOf "pkg/__init__.py",
         strOf "pkg/data.json"] (strOf "pkg") (strOf "sub/")) := by
  have h := exclusion_boundary
    [strOf "pkg/a.py", strOf "pkg/sub/b.py", strOf "pkg/__init__.py",
     strOf "pkg/data.json"] (strOf "pkg") (strOf "pkg") (strOf "sub")
    (by decide) (by decide)
    (by refine ⟨by decide, ?_, ?_⟩ <;> decide)
    (by refine ⟨by decide, ?_, ?_⟩ <;> decide)
    (by decide) (by decide) (by decide) (by decide)
    (by intro p hp; fin_cases hp <;>
      exact ⟨by decide, by decide, by decide, by decide⟩)
  exact ⟨h.1, h.2.1 (strOf "sub/b.py"),
    h.2.2 (strOf "c.py") (by decide) (by decide)⟩

/-! The resolver on the specification's worked scenario: `sourceDir =
pkg` with `a.py`, `sub/b.py`, `__init__.py`, `data.json` and the
exclusion `sub/b.py` selects exactly `a.py`, and the non-compiled set
is exactly the excluded file, the package-init file and the data
file. -/

example :
    compile_files_rel dedupList
      [strOf "pkg/a.py", strOf "pkg/sub/b.py", strOf "pkg/__init__.py",
       strOf "pkg/data.json"]
      (strOf "pkg") [strOf "sub/b.py"] = [strOf "a.py"] := by decide

example :
    get_non_compile_files dedupList
      [strOf "pkg/a.py", strOf "pkg/sub/b.py", strOf "pkg/__init__.py",
       strOf "pkg/data.json"]
      (strOf "pkg") (get_compile_files dedupList
        [strOf "pkg/a.py", strOf "pkg/sub/b.py", strOf "pkg/__init__.py",
         strOf "pkg/data.json"] (strOf "pkg") [strOf "sub/b.py"]) =
      [strOf "pkg/sub/b.py", strOf "pkg/__init__.py", strOf "pkg/data.json"] := by
  decide

end Py2dist
